/-
Verification of the frostbit snowflake-ID generator.

Shallow embedding of `src/lib.rs` and `src/timestamp_sequence.rs`.

Modelling conventions:
* Rust `u64` values are `Nat`s; wrapping operations carry an explicit
  `% u64size`.  Checked arithmetic (Rust debug semantics: overflow and
  underflow of `+`/`-`/`<<` panic) is modelled by returning `none` from
  an `Option`-valued embedding of the fallible operation.
* The atomic word inside `TimestampSequenceGenerator` is threaded through
  explicitly: every operation takes the current word and returns the new
  word.  Sequential executions of the CAS loop of `increment_sequence`
  are modelled directly: sequentially the first `compare_exchange`
  always succeeds, so the loop body runs at most once.
* The injected time source is modelled by passing each call's
  `Result<u64, &'static str>` value (`Except String Nat`) as an argument.
-/
import Mathlib

/-- Decidable equality for `Except`, used to evaluate concrete scenarios. -/
instance {ε α : Type} [DecidableEq ε] [DecidableEq α] : DecidableEq (Except ε α)
  | .ok a, .ok b =>
    if h : a = b then .isTrue (by rw [h]) else .isFalse (by simp [h])
  | .ok _, .error _ => .isFalse (by simp)
  | .error _, .ok _ => .isFalse (by simp)
  | .error e, .error f =>
    if h : e = f then .isTrue (by rw [h]) else .isFalse (by simp [h])

/-- 2^64, the number of values of a Rust `u64`. -/
def u64size : Nat := 2 ^ 64

/-- Errors of the generator (`SnowflakeGeneratorError` in `src/lib.rs`). -/
inductive SnowflakeGeneratorError where
  | SequenceOverflow : SnowflakeGeneratorError
  | TimestampOverflow : SnowflakeGeneratorError
  | TimestampError : String → SnowflakeGeneratorError
  | InvalidBitConfig : SnowflakeGeneratorError
deriving DecidableEq, Repr

/-- Configuration (`SnowflakeConfig` in `src/lib.rs`): three field widths and
the masks / maxima derived from them. -/
structure SnowflakeConfig where
  machine_id_bits : Nat
  sequence_bits : Nat
  timestamp_mask : Nat
  machine_id_mask : Nat
  sequence_mask : Nat
  timestamp_max : Nat
  sequence_max : Nat
deriving DecidableEq, Repr

/-- `build_mask` in `src/lib.rs`: `(1 << bits) - 1`.  All call sites pass
`bits ≤ 63`, for which the `u64` shift is exact, so no wrap is modelled. -/
def build_mask (bits : Nat) : Nat := (1 <<< bits) - 1

/-- `calc_max` in `src/lib.rs`: `2u64.pow(bits as u32) - 1`.  All call sites
pass `bits ≤ 62`, for which the `u64` power is exact. -/
def calc_max (bits : Nat) : Nat := 2 ^ bits - 1

/-- The record built on the success path of `SnowflakeConfig::new`. -/
def SnowflakeConfig.derive (timestamp_bits machine_id_bits sequence_bits : Nat) :
    SnowflakeConfig where
  machine_id_bits := machine_id_bits
  sequence_bits := sequence_bits
  timestamp_mask := build_mask timestamp_bits
  machine_id_mask := build_mask machine_id_bits
  sequence_mask := build_mask sequence_bits
  timestamp_max := calc_max timestamp_bits
  sequence_max := calc_max sequence_bits

/-- `SnowflakeConfig::new`.  `validate_config` first computes
`timestamp_bits + machine_id_bits + sequence_bits` in `u64`; a sum of
`2^64` or more overflows the checked addition (`none`).  Otherwise the two
validation checks run in source order (bit-sum check, then zero checks),
and on success the masks and maxima are derived. -/
def SnowflakeConfig.new (timestamp_bits machine_id_bits sequence_bits : Nat) :
    Option (Except SnowflakeGeneratorError SnowflakeConfig) :=
  if u64size ≤ timestamp_bits + machine_id_bits + sequence_bits then
    none
  else if 64 < timestamp_bits + machine_id_bits + sequence_bits then
    some (.error .InvalidBitConfig)
  else if machine_id_bits = 0 ∨ sequence_bits = 0 ∨ timestamp_bits = 0 then
    some (.error .InvalidBitConfig)
  else
    some (.ok (SnowflakeConfig.derive timestamp_bits machine_id_bits sequence_bits))

/-- `SnowflakeConfig::timestamp_shift`. -/
def SnowflakeConfig.timestamp_shift (c : SnowflakeConfig) : Nat :=
  c.machine_id_bits + c.sequence_bits

/-- `SnowflakeConfig::default()`: the validated `(41, 10, 12)` preset. -/
def SnowflakeConfig.defaultConfig : SnowflakeConfig :=
  SnowflakeConfig.derive 41 10 12

/-- The immutable part of `TimestampSequenceGenerator`
(`src/timestamp_sequence.rs`); the mutable `AtomicU64` word is threaded
separately as a `Nat`. -/
structure TimestampSequenceGenerator where
  config : SnowflakeConfig
  shifted_timestamp_mask : Nat
  extended_sequence_mask : Nat
deriving DecidableEq, Repr

/-- The derived-mask part of `TimestampSequenceGenerator::new`. -/
def TimestampSequenceGenerator.ofConfig (config : SnowflakeConfig) :
    TimestampSequenceGenerator where
  config := config
  shifted_timestamp_mask := (config.timestamp_mask <<< config.timestamp_shift) % u64size
  extended_sequence_mask := build_mask (config.sequence_bits + 1)

/-- `TimestampSequenceGenerator::new`: returns the immutable part and the
initial value of the atomic word (`timestamp << timestamp_shift`). -/
def TimestampSequenceGenerator.new (timestamp : Nat) (config : SnowflakeConfig) :
    TimestampSequenceGenerator × Nat :=
  (TimestampSequenceGenerator.ofConfig config,
    (timestamp <<< config.timestamp_shift) % u64size)

/-- A decoded (sequence, timestamp) pair (`TimestampSequence` in
`src/timestamp_sequence.rs`). -/
structure TimestampSequence where
  sequence : Nat
  timestamp : Nat
deriving DecidableEq, Repr

/-- The word on which the fetch-add of `increment_sequence` operates: the
result of the CAS loop run sequentially.  The loop loads the word; if
`new_timestamp_shifted ≤ word & shifted_timestamp_mask` it breaks leaving the
word unchanged, otherwise its `compare_exchange` succeeds (no interference in
a sequential execution) and installs `new_timestamp_shifted`. -/
def TimestampSequenceGenerator.casResult (g : TimestampSequenceGenerator)
    (word new_timestamp : Nat) : Nat :=
  let new_timestamp_shifted := (new_timestamp <<< g.config.timestamp_shift) % u64size
  if new_timestamp_shifted ≤ word &&& g.shifted_timestamp_mask then word
  else new_timestamp_shifted

/-- `TimestampSequenceGenerator::increment_sequence`, sequential semantics.
After the CAS loop (`casResult`), `fetch_add(1)` returns the pre-add word
`new_timestamp_sequence` and stores the wrapped successor.  The result is
`SequenceOverflow` when the extended-mask sequence field of the pre-add word
exceeds `sequence_max`, else the decoded pair from the pre-add word. -/
def TimestampSequenceGenerator.increment_sequence (g : TimestampSequenceGenerator)
    (word new_timestamp : Nat) :
    Except SnowflakeGeneratorError TimestampSequence × Nat :=
  let new_timestamp_sequence := g.casResult word new_timestamp
  let word2 := (new_timestamp_sequence + 1) % u64size
  let masked_sequence := new_timestamp_sequence &&& g.extended_sequence_mask
  if g.config.sequence_max < masked_sequence then
    (.error .SequenceOverflow, word2)
  else
    (.ok { sequence := new_timestamp_sequence &&& g.extended_sequence_mask,
           timestamp := (new_timestamp_sequence &&& g.shifted_timestamp_mask) >>>
             g.config.timestamp_shift },
     word2)

/-- `TimestampSequence::into_snowflake`: assemble the output ID. -/
def TimestampSequence.into_snowflake (self : TimestampSequence) (machine_id : Nat)
    (config : SnowflakeConfig) : Nat :=
  let timestamp_bits := self.timestamp &&& config.timestamp_mask
  let machine_id_bits := machine_id &&& config.machine_id_mask
  let sequence_id_bits := self.sequence &&& config.sequence_mask
  ((timestamp_bits <<< config.timestamp_shift) % u64size) |||
    ((machine_id_bits <<< config.sequence_bits) % u64size) ||| sequence_id_bits

/-- The immutable part of `SnowflakeGenerator` (`src/lib.rs`); the counter
word is threaded separately, and each call's time-source result is passed in. -/
structure SnowflakeGenerator where
  machine_id : Nat
  ts_gen : TimestampSequenceGenerator
  epoch : Nat
  config : SnowflakeConfig
deriving DecidableEq, Repr

/-- `SnowflakeGenerator::get_epoch_relative_timestamp`.  The Rust code
computes `get_timestamp()? - epoch` with a checked `u64` subtraction: a time
value below the epoch underflows (`none`, a panic in the source).  Otherwise
the relative timestamp is range-checked against `timestamp_max`. -/
def SnowflakeGenerator.get_epoch_relative_timestamp
    (get_timestamp : Except String Nat) (epoch : Nat) (config : SnowflakeConfig) :
    Option (Except SnowflakeGeneratorError Nat) :=
  match get_timestamp with
  | .error e => some (.error (.TimestampError e))
  | .ok t =>
    if t < epoch then none
    else
      let timestamp_ms := t - epoch
      if timestamp_ms < config.timestamp_max then some (.ok timestamp_ms)
      else some (.error .TimestampOverflow)

/-- `SnowflakeGenerator::new_with_config`: one time-source call, then the
counter is initialised with the relative timestamp.  Returns the generator
and the initial counter word. -/
def SnowflakeGenerator.new_with_config (machine_id epoch : Nat)
    (get_timestamp : Except String Nat) (config : SnowflakeConfig) :
    Option (Except SnowflakeGeneratorError (SnowflakeGenerator × Nat)) :=
  match SnowflakeGenerator.get_epoch_relative_timestamp get_timestamp epoch config with
  | none => none
  | some (.error e) => some (.error e)
  | some (.ok timestamp_ms) =>
    let tsg := TimestampSequenceGenerator.new timestamp_ms config
    some (.ok ({ machine_id := machine_id, ts_gen := tsg.1, epoch := epoch,
                 config := config }, tsg.2))

/-- `SnowflakeGenerator::new`: `new_with_config` with the default preset. -/
def SnowflakeGenerator.newGen (machine_id epoch : Nat)
    (get_timestamp : Except String Nat) :
    Option (Except SnowflakeGeneratorError (SnowflakeGenerator × Nat)) :=
  SnowflakeGenerator.new_with_config machine_id epoch get_timestamp
    SnowflakeConfig.defaultConfig

/-- `SnowflakeGenerator::generate`: one time-source call, the range check,
the counter increment, then bit assembly.  `none` models the pre-epoch
underflow panic; otherwise the `Except` carries the error or the ID. -/
def SnowflakeGenerator.generate (g : SnowflakeGenerator) (word : Nat)
    (get_timestamp : Except String Nat) :
    Option (Except SnowflakeGeneratorError Nat) × Nat :=
  match SnowflakeGenerator.get_epoch_relative_timestamp get_timestamp g.epoch g.config with
  | none => (none, word)
  | some (.error e) => (some (.error e), word)
  | some (.ok new_timestamp) =>
    match g.ts_gen.increment_sequence word new_timestamp with
    | (.error e, word2) => (some (.error e), word2)
    | (.ok timestamp_sequence, word2) =>
      (some (.ok (timestamp_sequence.into_snowflake g.machine_id g.config)), word2)

/-- Run a sequence of `increment_sequence` calls, collecting the results and
the final counter word. -/
def TimestampSequenceGenerator.runIncrement (g : TimestampSequenceGenerator) :
    Nat → List Nat → List (Except SnowflakeGeneratorError TimestampSequence) × Nat
  | word, [] => ([], word)
  | word, c :: cs =>
    let step := g.increment_sequence word c
    let rest := g.runIncrement step.2 cs
    (step.1 :: rest.1, rest.2)

/-- Run a sequence of `generate` calls, collecting the results and the final
counter word. -/
def SnowflakeGenerator.runGenerate (g : SnowflakeGenerator) :
    Nat → List (Except String Nat) →
      List (Option (Except SnowflakeGeneratorError Nat)) × Nat
  | word, [] => ([], word)
  | word, t :: ts =>
    let step := g.generate word t
    let rest := g.runGenerate step.2 ts
    (step.1 :: rest.1, rest.2)

/-- The pre-add words (the values returned by the `fetch_add`) of a run of
`increment_sequence` calls: call `i`'s decoded output is read off its
pre-add word. -/
def TimestampSequenceGenerator.preTrace (g : TimestampSequenceGenerator) :
    Nat → List Nat → List Nat
  | _, [] => []
  | word, c :: cs =>
    let p := g.casResult word c
    p :: g.preTrace ((p + 1) % u64size) cs

/-- All counter words of a run: the initial word followed by the word after
each call. -/
def TimestampSequenceGenerator.wordTrace (g : TimestampSequenceGenerator) :
    Nat → List Nat → List Nat
  | word, [] => [word]
  | word, c :: cs => word :: g.wordTrace (g.increment_sequence word c).2 cs

/-- The timestamp subfield stored in the counter word. -/
def TimestampSequenceGenerator.storedTick (g : TimestampSequenceGenerator)
    (word : Nat) : Nat :=
  (word &&& g.shifted_timestamp_mask) >>> g.config.timestamp_shift

/-- Decode the timestamp field of an assembled ID. -/
def SnowflakeConfig.decode_timestamp (c : SnowflakeConfig) (id : Nat) : Nat :=
  (id >>> c.timestamp_shift) &&& c.timestamp_mask

/-- Decode the sequence field of an assembled ID. -/
def SnowflakeConfig.decode_sequence (c : SnowflakeConfig) (id : Nat) : Nat :=
  id &&& c.sequence_mask

/-- Decode both claimed fields of an assembled ID. -/
def SnowflakeConfig.decodePair (c : SnowflakeConfig) (id : Nat) : Nat × Nat :=
  (c.decode_timestamp id, c.decode_sequence id)

/-- Extract the ID of a successful `generate` result. -/
def okId : Option (Except SnowflakeGeneratorError Nat) → Option Nat
  | some (.ok id) => some id
  | _ => none

/-- Extract the pair of a successful `increment_sequence` result. -/
def okPair : Except SnowflakeGeneratorError TimestampSequence →
    Option TimestampSequence
  | .ok p => some p
  | .error _ => none

/-- The counter built from a width triple, as `SnowflakeGenerator::new_with_config`
builds it from a validated configuration. -/
def genD (tb mb sb : Nat) : TimestampSequenceGenerator :=
  TimestampSequenceGenerator.ofConfig (SnowflakeConfig.derive tb mb sb)

/-- Fewer than `2^(sequence_bits+1)` calls land in any one tick: every call's
pre-add word has a within-shift remainder of at most `2^(sequence_bits+1) - 2`,
i.e. the sequence subfield of the counter never reaches its extended capacity
during the run. -/
def TimestampSequenceGenerator.perTickBudget (g : TimestampSequenceGenerator)
    (word : Nat) (cands : List Nat) : Prop :=
  ∀ p ∈ g.preTrace word cands,
    p % 2 ^ g.config.timestamp_shift + 2 ≤ 2 ^ (g.config.sequence_bits + 1)

instance (g : TimestampSequenceGenerator) (word : Nat) (cands : List Nat) :
    Decidable (g.perTickBudget word cands) := by
  unfold TimestampSequenceGenerator.perTickBudget
  infer_instance

/-- Conjunction of width-validity constraints used throughout: every width is
positive and the widths fit in 64 bits. -/
def WidthsValid (tb mb sb : Nat) : Prop :=
  0 < tb ∧ 0 < mb ∧ 0 < sb ∧ tb + mb + sb ≤ 64

instance (tb mb sb : Nat) : Decidable (WidthsValid tb mb sb) := by
  unfold WidthsValid
  infer_instance

theorem build_mask_eq (b : Nat) : build_mask b = 2 ^ b - 1 := by
  simp [build_mask, Nat.shiftLeft_eq]

/-- Masking with a mask of `a` ones placed at offset `k` extracts the length-`a`
field at offset `k`. -/
theorem and_mask_shl (x a k : Nat) :
    x &&& (2 ^ a - 1) <<< k = x / 2 ^ k % 2 ^ a * 2 ^ k := by
  apply Nat.eq_of_testBit_eq
  intro j
  rw [Nat.testBit_and, Nat.testBit_shiftLeft, Nat.testBit_two_pow_sub_one]
  rw [Nat.mul_comm (x / 2 ^ k % 2 ^ a) (2 ^ k), Nat.testBit_mul_pow_two]
  rcases Nat.lt_or_ge j k with h | h
  · simp [Nat.not_le_of_lt h]
  · have h1 : k + (j - k) = j := Nat.add_sub_cancel' h
    rw [Nat.testBit_mod_two_pow, ← Nat.shiftRight_eq_div_pow, Nat.testBit_shiftRight, h1]
    cases x.testBit j <;> simp [h]

theorem derive_timestamp_shift (tb mb sb : Nat) :
    (SnowflakeConfig.derive tb mb sb).timestamp_shift = mb + sb := rfl

theorem derive_machine_id_bits (tb mb sb : Nat) :
    (SnowflakeConfig.derive tb mb sb).machine_id_bits = mb := rfl

theorem derive_sequence_bits (tb mb sb : Nat) :
    (SnowflakeConfig.derive tb mb sb).sequence_bits = sb := rfl

theorem derive_timestamp_mask (tb mb sb : Nat) :
    (SnowflakeConfig.derive tb mb sb).timestamp_mask = 2 ^ tb - 1 := build_mask_eq tb

theorem derive_machine_id_mask (tb mb sb : Nat) :
    (SnowflakeConfig.derive tb mb sb).machine_id_mask = 2 ^ mb - 1 := build_mask_eq mb

theorem derive_sequence_mask (tb mb sb : Nat) :
    (SnowflakeConfig.derive tb mb sb).sequence_mask = 2 ^ sb - 1 := build_mask_eq sb

theorem derive_timestamp_max (tb mb sb : Nat) :
    (SnowflakeConfig.derive tb mb sb).timestamp_max = 2 ^ tb - 1 := rfl

theorem derive_sequence_max (tb mb sb : Nat) :
    (SnowflakeConfig.derive tb mb sb).sequence_max = 2 ^ sb - 1 := rfl

theorem genD_config (tb mb sb : Nat) :
    (genD tb mb sb).config = SnowflakeConfig.derive tb mb sb := rfl

theorem genD_extended_sequence_mask (tb mb sb : Nat) :
    (genD tb mb sb).extended_sequence_mask = 2 ^ (sb + 1) - 1 := build_mask_eq (sb + 1)

theorem two_pow_shift_le_u64 {tb mb sb : Nat} (hsum : tb + mb + sb ≤ 64) (htb : 0 < tb) :
    2 ^ (mb + sb) ≤ u64size := by
  exact Nat.pow_le_pow_right (by norm_num) (by omega)

theorem mul_two_pow_shift_lt_u64 {tb mb sb x : Nat} (hsum : tb + mb + sb ≤ 64)
    (hx : x < 2 ^ tb) : x * 2 ^ (mb + sb) < u64size := by
  calc x * 2 ^ (mb + sb) < 2 ^ tb * 2 ^ (mb + sb) :=
        (Nat.mul_lt_mul_right (Nat.two_pow_pos _)).mpr hx
    _ = 2 ^ (tb + (mb + sb)) := (Nat.pow_add 2 tb (mb + sb)).symm
    _ ≤ u64size := Nat.pow_le_pow_right (by norm_num) (by omega)

theorem genD_shifted_timestamp_mask {tb mb sb : Nat} (hsum : tb + mb + sb ≤ 64) :
    (genD tb mb sb).shifted_timestamp_mask = (2 ^ tb - 1) * 2 ^ (mb + sb) := by
  show build_mask tb <<< (mb + sb) % u64size = _
  rw [build_mask_eq, Nat.shiftLeft_eq]
  exact Nat.mod_eq_of_lt (mul_two_pow_shift_lt_u64 hsum (by
    exact Nat.sub_lt (Nat.two_pow_pos tb) Nat.one_pos))

/-- Masking a word with the shifted timestamp mask extracts the timestamp
subfield in place. -/
theorem and_shifted_timestamp_mask {tb mb sb : Nat} (hsum : tb + mb + sb ≤ 64)
    (w : Nat) :
    w &&& (genD tb mb sb).shifted_timestamp_mask =
      w / 2 ^ (mb + sb) % 2 ^ tb * 2 ^ (mb + sb) := by
  rw [genD_shifted_timestamp_mask hsum, ← Nat.shiftLeft_eq, and_mask_shl]

/-- The decoded timestamp of a pre-add word. -/
theorem decoded_timestamp_of_word {tb mb sb : Nat} (hsum : tb + mb + sb ≤ 64)
    (w : Nat) :
    (w &&& (genD tb mb sb).shifted_timestamp_mask) >>>
        (genD tb mb sb).config.timestamp_shift = w / 2 ^ (mb + sb) % 2 ^ tb := by
  rw [and_shifted_timestamp_mask hsum, genD_config, derive_timestamp_shift,
    Nat.shiftRight_eq_div_pow]
  exact Nat.mul_div_cancel _ (Nat.two_pow_pos _)

/-- Reshape `increment_sequence` as a pair whose second component is the
post-add word in both branches. -/
theorem increment_sequence_eq (g : TimestampSequenceGenerator) (w c : Nat) :
    g.increment_sequence w c =
      (if g.config.sequence_max < g.casResult w c &&& g.extended_sequence_mask then
          .error .SequenceOverflow
        else
          .ok { sequence := g.casResult w c &&& g.extended_sequence_mask,
                timestamp := (g.casResult w c &&& g.shifted_timestamp_mask) >>>
                  g.config.timestamp_shift },
        (g.casResult w c + 1) % u64size) := by
  simp only [TimestampSequenceGenerator.increment_sequence]
  split <;> rename_i h <;> simp [h]

theorem increment_sequence_snd (g : TimestampSequenceGenerator) (w c : Nat) :
    (g.increment_sequence w c).2 = (g.casResult w c + 1) % u64size := by
  rw [increment_sequence_eq]

/-- For an in-field candidate, the CAS loop keeps the word exactly when the
candidate is at most the stored tick, and otherwise installs the shifted
candidate. -/
theorem casResult_in_range {tb mb sb : Nat} (hsum : tb + mb + sb ≤ 64)
    (w c : Nat) (hc : c < 2 ^ tb) :
    (genD tb mb sb).casResult w c =
      if c ≤ w / 2 ^ (mb + sb) % 2 ^ tb then w else c * 2 ^ (mb + sb) := by
  unfold TimestampSequenceGenerator.casResult
  rw [genD_config, derive_timestamp_shift, Nat.shiftLeft_eq,
    Nat.mod_eq_of_lt (mul_two_pow_shift_lt_u64 hsum hc),
    and_shifted_timestamp_mask hsum]
  rcases (Nat.lt_or_ge (w / 2 ^ (mb + sb) % 2 ^ tb) c).symm with h | h
  · rw [if_pos (Nat.mul_le_mul_right _ h), if_pos h]
  · rw [if_neg (Nat.not_le_of_lt ((Nat.mul_lt_mul_right (Nat.two_pow_pos _)).mpr h)),
      if_neg (Nat.not_le_of_lt h)]

theorem seq_capacity_le_shift {mb sb : Nat} (hmb : 0 < mb) :
    2 ^ (sb + 1) ≤ 2 ^ (mb + sb) :=
  Nat.pow_le_pow_right (by norm_num) (by omega)

/-- Everything one sequential `increment_sequence` call does, for an in-field
candidate, a word whose tick subfield is below `timestamp_max`, and a pre-add
word whose sequence subfield is within budget: the pre-add word is at least
the incoming word, its tick is the maximum of the stored tick and the
candidate, the call returns the decomposition of the pre-add word (or
`SequenceOverflow`), and the post word is its exact successor. -/
theorem increment_step {tb mb sb : Nat} (htb : 0 < tb) (hmb : 0 < mb) (hsb : 0 < sb)
    (hsum : tb + mb + sb ≤ 64) {w c : Nat}
    (hw : w / 2 ^ (mb + sb) < 2 ^ tb - 1)
    (hc : c < 2 ^ tb - 1)
    (hbudget : (genD tb mb sb).casResult w c % 2 ^ (mb + sb) + 2 ≤ 2 ^ (sb + 1)) :
    (w ≤ (genD tb mb sb).casResult w c ∧
      (genD tb mb sb).casResult w c / 2 ^ (mb + sb) < 2 ^ tb - 1 ∧
      w / 2 ^ (mb + sb) ≤ (genD tb mb sb).casResult w c / 2 ^ (mb + sb)) ∧
    (genD tb mb sb).increment_sequence w c =
      (if 2 ^ sb - 1 < (genD tb mb sb).casResult w c % 2 ^ (mb + sb) then
          .error .SequenceOverflow
        else
          .ok { sequence := (genD tb mb sb).casResult w c % 2 ^ (mb + sb),
                timestamp := (genD tb mb sb).casResult w c / 2 ^ (mb + sb) },
        (genD tb mb sb).casResult w c + 1) ∧
    ((genD tb mb sb).casResult w c + 1) / 2 ^ (mb + sb) =
      (genD tb mb sb).casResult w c / 2 ^ (mb + sb) ∧
    ((genD tb mb sb).casResult w c + 1) % 2 ^ (mb + sb) =
      (genD tb mb sb).casResult w c % 2 ^ (mb + sb) + 1 := by
  have hK : 0 < 2 ^ (mb + sb) := Nat.two_pow_pos _
  have hcap : 2 ^ (sb + 1) ≤ 2 ^ (mb + sb) := seq_capacity_le_shift hmb
  have hcK : c < 2 ^ tb := Nat.lt_of_lt_of_le hc (Nat.sub_le _ _)
  have hwmod : w / 2 ^ (mb + sb) % 2 ^ tb = w / 2 ^ (mb + sb) :=
    Nat.mod_eq_of_lt (Nat.lt_of_lt_of_le hw (Nat.sub_le _ _))
  have hp : (genD tb mb sb).casResult w c =
      if c ≤ w / 2 ^ (mb + sb) then w else c * 2 ^ (mb + sb) := by
    rw [casResult_in_range hsum w c hcK, hwmod]
  set p := (genD tb mb sb).casResult w c with hpdef
  have part1 : w ≤ p ∧ p / 2 ^ (mb + sb) < 2 ^ tb - 1 ∧
      w / 2 ^ (mb + sb) ≤ p / 2 ^ (mb + sb) := by
    rw [hp]
    rcases (Nat.lt_or_ge (w / 2 ^ (mb + sb)) c).symm with h | h
    · rw [if_pos h]
      exact ⟨Nat.le_refl _, hw, Nat.le_refl _⟩
    · rw [if_neg (Nat.not_le_of_lt h)]
      have hdiv : c * 2 ^ (mb + sb) / 2 ^ (mb + sb) = c := Nat.mul_div_cancel _ hK
      refine ⟨Nat.le_of_lt ?_, by rw [hdiv]; exact hc, by rw [hdiv]; exact Nat.le_of_lt h⟩
      calc w < 2 ^ (mb + sb) * (w / 2 ^ (mb + sb)) + 2 ^ (mb + sb) := by
            have h1 := Nat.div_add_mod w (2 ^ (mb + sb))
            have h2 := Nat.mod_lt w hK
            omega
        _ = 2 ^ (mb + sb) * (w / 2 ^ (mb + sb) + 1) := by
            rw [Nat.mul_add, Nat.mul_one]
        _ ≤ 2 ^ (mb + sb) * c := Nat.mul_le_mul_left _ h
        _ = c * 2 ^ (mb + sb) := Nat.mul_comm _ _
  have hmasked : p &&& (genD tb mb sb).extended_sequence_mask = p % 2 ^ (mb + sb) := by
    rw [genD_extended_sequence_mask, Nat.and_pow_two_sub_one_eq_mod,
      ← Nat.mod_mod_of_dvd p (Nat.pow_dvd_pow 2 (by omega : sb + 1 ≤ mb + sb))]
    exact Nat.mod_eq_of_lt (by omega)
  have htsdec : (p &&& (genD tb mb sb).shifted_timestamp_mask) >>>
      (genD tb mb sb).config.timestamp_shift = p / 2 ^ (mb + sb) := by
    rw [decoded_timestamp_of_word hsum]
    exact Nat.mod_eq_of_lt (Nat.lt_of_lt_of_le part1.2.1 (Nat.sub_le _ _))
  have htwo : 2 ≤ 2 ^ tb := by
    calc 2 = 2 ^ 1 := rfl
    _ ≤ 2 ^ tb := Nat.pow_le_pow_right (by norm_num) htb
  have hple : p ≤ 2 ^ (mb + sb) * (2 ^ tb - 2) + (2 ^ (sb + 1) - 2) := by
    have h1 := Nat.div_add_mod p (2 ^ (mb + sb))
    have h3 : 2 ^ (mb + sb) * (p / 2 ^ (mb + sb)) ≤ 2 ^ (mb + sb) * (2 ^ tb - 2) :=
      Nat.mul_le_mul_left _ (by omega)
    omega
  have hfin : p + 1 < u64size := by
    have h4 : 2 ^ (mb + sb) * (2 ^ tb - 2) + 2 ^ (mb + sb) =
        2 ^ (mb + sb) * (2 ^ tb - 1) := by
      rw [← Nat.mul_succ]
      congr 1
      omega
    have h5 : 2 ^ (mb + sb) * (2 ^ tb - 1) < 2 ^ (mb + sb) * 2 ^ tb :=
      (Nat.mul_lt_mul_left hK).mpr (Nat.sub_lt (Nat.two_pow_pos _) Nat.one_pos)
    have h6 : 2 ^ (mb + sb) * 2 ^ tb = 2 ^ (mb + sb + tb) :=
      (Nat.pow_add 2 (mb + sb) tb).symm
    have h7 : (2 : Nat) ^ (mb + sb + tb) ≤ 2 ^ 64 :=
      Nat.pow_le_pow_right (by norm_num) (by omega)
    show p + 1 < 2 ^ 64
    omega
  have part2 : (genD tb mb sb).increment_sequence w c =
      (if 2 ^ sb - 1 < p % 2 ^ (mb + sb) then .error .SequenceOverflow
        else .ok { sequence := p % 2 ^ (mb + sb), timestamp := p / 2 ^ (mb + sb) },
        p + 1) := by
    rw [increment_sequence_eq, ← hpdef, hmasked, htsdec, Nat.mod_eq_of_lt hfin,
      genD_config, derive_sequence_max]
  have hsucc : p % 2 ^ (mb + sb) + 1 < 2 ^ (mb + sb) := by omega
  have hdecomp : p + 1 = 2 ^ (mb + sb) * (p / 2 ^ (mb + sb)) + (p % 2 ^ (mb + sb) + 1) := by
    have h1 := Nat.div_add_mod p (2 ^ (mb + sb))
    omega
  refine ⟨part1, part2, ?_, ?_⟩
  · rw [hdecomp, Nat.mul_add_div hK, Nat.div_eq_of_lt hsucc, Nat.add_zero]
  · rw [hdecomp, Nat.mul_add_mod, Nat.mod_eq_of_lt hsucc]

theorem runIncrement_nil (g : TimestampSequenceGenerator) (w : Nat) :
    g.runIncrement w [] = ([], w) := rfl

theorem runIncrement_cons (g : TimestampSequenceGenerator) (w c : Nat) (cs : List Nat) :
    g.runIncrement w (c :: cs) =
      ((g.increment_sequence w c).1 ::
          (g.runIncrement (g.increment_sequence w c).2 cs).1,
        (g.runIncrement (g.increment_sequence w c).2 cs).2) := rfl

theorem preTrace_cons (g : TimestampSequenceGenerator) (w c : Nat) (cs : List Nat) :
    g.preTrace w (c :: cs) =
      g.casResult w c :: g.preTrace ((g.casResult w c + 1) % u64size) cs := rfl

theorem wordTrace_cons (g : TimestampSequenceGenerator) (w c : Nat) (cs : List Nat) :
    g.wordTrace w (c :: cs) = w :: g.wordTrace (g.increment_sequence w c).2 cs := rfl

/-- Inductive specification of a sequential run of `increment_sequence` calls
with in-field candidates, a well-formed starting word, and the per-tick call
budget respected: the word grows, its tick subfield stays below
`timestamp_max`, every successful output is the exact bit-decomposition of a
word in the window of the run, and the encodings of successful outputs are
strictly increasing in call order. -/
theorem runIncrement_spec {tb mb sb : Nat} (htb : 0 < tb) (hmb : 0 < mb)
    (hsb : 0 < sb) (hsum : tb + mb + sb ≤ 64) (cands : List Nat) :
    ∀ w : Nat, w / 2 ^ (mb + sb) < 2 ^ tb - 1 →
      (∀ c ∈ cands, c < 2 ^ tb - 1) →
      (∀ p ∈ (genD tb mb sb).preTrace w cands, p % 2 ^ (mb + sb) + 2 ≤ 2 ^ (sb + 1)) →
      w ≤ ((genD tb mb sb).runIncrement w cands).2 ∧
      ((genD tb mb sb).runIncrement w cands).2 / 2 ^ (mb + sb) < 2 ^ tb - 1 ∧
      (∀ q ∈ ((genD tb mb sb).runIncrement w cands).1.filterMap okPair,
        q.timestamp < 2 ^ tb - 1 ∧ q.sequence ≤ 2 ^ sb - 1 ∧
        w ≤ q.timestamp * 2 ^ (mb + sb) + q.sequence ∧
        q.timestamp * 2 ^ (mb + sb) + q.sequence <
          ((genD tb mb sb).runIncrement w cands).2) ∧
      (((genD tb mb sb).runIncrement w cands).1.filterMap okPair).Pairwise
        (fun q r => q.timestamp * 2 ^ (mb + sb) + q.sequence <
          r.timestamp * 2 ^ (mb + sb) + r.sequence) := by
  induction cands with
  | nil =>
    intro w hw _ _
    simp only [runIncrement_nil, List.filterMap_nil]
    exact ⟨Nat.le_refl _, hw, by simp, List.Pairwise.nil⟩
  | cons c cs ih =>
    intro w hw hc hb
    have hchead : c < 2 ^ tb - 1 := hc c (List.mem_cons_self c cs)
    have hbhead : (genD tb mb sb).casResult w c % 2 ^ (mb + sb) + 2 ≤ 2 ^ (sb + 1) := by
      apply hb
      rw [preTrace_cons]
      exact List.mem_cons_self _ _
    obtain ⟨⟨hwp, hpT, hmono⟩, heq, hdiv1, hmod1⟩ :=
      increment_step htb hmb hsb hsum hw hchead hbhead
    set p := (genD tb mb sb).casResult w c with hpdef
    have hnowrap : (p + 1) % u64size = p + 1 := by
      have h1 := increment_sequence_snd (genD tb mb sb) w c
      rw [heq] at h1
      exact h1.symm
    have hwtail : (p + 1) / 2 ^ (mb + sb) < 2 ^ tb - 1 := by
      rw [hdiv1]; exact hpT
    have hctail : ∀ x ∈ cs, x < 2 ^ tb - 1 :=
      fun x hx => hc x (List.mem_cons_of_mem _ hx)
    have hbtail : ∀ q ∈ (genD tb mb sb).preTrace (p + 1) cs,
        q % 2 ^ (mb + sb) + 2 ≤ 2 ^ (sb + 1) := by
      intro q hq
      apply hb
      rw [preTrace_cons]
      refine List.mem_cons_of_mem _ ?_
      rw [hnowrap]
      exact hq
    obtain ⟨ihA, ihB, ihC, ihD⟩ := ih (p + 1) hwtail hctail hbtail
    have hencp : p / 2 ^ (mb + sb) * 2 ^ (mb + sb) + p % 2 ^ (mb + sb) = p := by
      rw [Nat.mul_comm]
      exact Nat.div_add_mod p _
    rw [runIncrement_cons, heq]
    dsimp only
    by_cases hov : 2 ^ sb - 1 < p % 2 ^ (mb + sb)
    · rw [if_pos hov]
      simp only [List.filterMap_cons, okPair]
      refine ⟨?_, ihB, ?_, ihD⟩
      · exact Nat.le_trans hwp (Nat.le_trans (Nat.le_succ _) ihA)
      · intro q hq
        obtain ⟨h1, h2, h3, h4⟩ := ihC q hq
        exact ⟨h1, h2, Nat.le_trans (Nat.le_trans hwp (Nat.le_succ _)) h3, h4⟩
    · rw [if_neg hov]
      simp only [List.filterMap_cons, okPair]
      refine ⟨?_, ihB, ?_, ?_⟩
      · exact Nat.le_trans hwp (Nat.le_trans (Nat.le_succ _) ihA)
      · intro q hq
        rcases List.mem_cons.mp hq with hq0 | hqs
        · subst hq0
          dsimp only
          rw [hencp]
          exact ⟨hpT, by omega, hwp, Nat.lt_of_lt_of_le (Nat.lt_succ_self _) ihA⟩
        · obtain ⟨h1, h2, h3, h4⟩ := ihC q hqs
          exact ⟨h1, h2, Nat.le_trans (Nat.le_trans hwp (Nat.le_succ _)) h3, h4⟩
      · rw [List.pairwise_cons]
        refine ⟨?_, ihD⟩
        intro r hr
        dsimp only
        rw [hencp]
        exact Nat.lt_of_lt_of_le (Nat.lt_succ_self _) (ihC r hr).2.2.1

/-- Bitwise-or of three naturally aligned fields is plain addition. -/
theorem assemble_eq_add {mb sb : Nat} (A B C : Nat) (hB : B < 2 ^ mb)
    (hC : C < 2 ^ sb) :
    A * 2 ^ (mb + sb) ||| B * 2 ^ sb ||| C = A * 2 ^ (mb + sb) + B * 2 ^ sb + C := by
  have h1 : A * 2 ^ (mb + sb) ||| B * 2 ^ sb = A * 2 ^ (mb + sb) + B * 2 ^ sb := by
    have hb2 : B * 2 ^ sb < 2 ^ (mb + sb) := by
      calc B * 2 ^ sb < 2 ^ mb * 2 ^ sb :=
            (Nat.mul_lt_mul_right (Nat.two_pow_pos _)).mpr hB
        _ = 2 ^ (mb + sb) := (Nat.pow_add 2 mb sb).symm
    rw [Nat.mul_comm A]
    exact (Nat.mul_add_lt_is_or hb2 A).symm
  rw [h1]
  have h2 : A * 2 ^ (mb + sb) + B * 2 ^ sb = 2 ^ sb * (2 ^ mb * A + B) := by
    rw [Nat.pow_add]
    ring
  rw [h2]
  exact (Nat.mul_add_lt_is_or hC _).symm

/-- `into_snowflake` on a derived configuration is the arithmetic layout
`timestamp | machine_id | sequence`, each field first truncated to its
width. -/
theorem into_snowflake_eq_add {tb mb sb : Nat} (hsum : tb + mb + sb ≤ 64)
    (p : TimestampSequence) (mid : Nat) :
    p.into_snowflake mid (SnowflakeConfig.derive tb mb sb) =
      p.timestamp % 2 ^ tb * 2 ^ (mb + sb) + mid % 2 ^ mb * 2 ^ sb +
        p.sequence % 2 ^ sb := by
  unfold TimestampSequence.into_snowflake
  dsimp only
  rw [derive_timestamp_mask, derive_machine_id_mask, derive_sequence_mask,
    derive_timestamp_shift, derive_sequence_bits,
    Nat.and_pow_two_sub_one_eq_mod, Nat.and_pow_two_sub_one_eq_mod,
    Nat.and_pow_two_sub_one_eq_mod, Nat.shiftLeft_eq, Nat.shiftLeft_eq]
  have h1 : p.timestamp % 2 ^ tb * 2 ^ (mb + sb) % u64size =
      p.timestamp % 2 ^ tb * 2 ^ (mb + sb) :=
    Nat.mod_eq_of_lt (mul_two_pow_shift_lt_u64 hsum (Nat.mod_lt _ (Nat.two_pow_pos _)))
  have h2 : mid % 2 ^ mb * 2 ^ sb % u64size = mid % 2 ^ mb * 2 ^ sb := by
    apply Nat.mod_eq_of_lt
    calc mid % 2 ^ mb * 2 ^ sb < 2 ^ mb * 2 ^ sb :=
          (Nat.mul_lt_mul_right (Nat.two_pow_pos _)).mpr (Nat.mod_lt _ (Nat.two_pow_pos _))
      _ = 2 ^ (mb + sb) := (Nat.pow_add 2 mb sb).symm
      _ ≤ 2 ^ 64 := Nat.pow_le_pow_right (by norm_num) (by omega)
  rw [h1, h2]
  exact assemble_eq_add _ _ _ (Nat.mod_lt _ (Nat.two_pow_pos _))
    (Nat.mod_lt _ (Nat.two_pow_pos _))

/-- The machine-id field never bleeds into the timestamp field: decoding the
timestamp of an assembled ID recovers the truncated input timestamp, whatever
the machine id. -/
theorem decode_timestamp_into {tb mb sb : Nat} (hsum : tb + mb + sb ≤ 64)
    (p : TimestampSequence) (mid : Nat) :
    (SnowflakeConfig.derive tb mb sb).decode_timestamp
        (p.into_snowflake mid (SnowflakeConfig.derive tb mb sb)) =
      p.timestamp % 2 ^ tb := by
  rw [into_snowflake_eq_add hsum]
  unfold SnowflakeConfig.decode_timestamp
  rw [derive_timestamp_shift, derive_timestamp_mask,
    Nat.and_pow_two_sub_one_eq_mod, Nat.shiftRight_eq_div_pow]
  have hlow : mid % 2 ^ mb * 2 ^ sb + p.sequence % 2 ^ sb < 2 ^ (mb + sb) := by
    have h1 : mid % 2 ^ mb ≤ 2 ^ mb - 1 := by
      have := Nat.mod_lt mid (Nat.two_pow_pos mb)
      omega
    have h2 : mid % 2 ^ mb * 2 ^ sb ≤ (2 ^ mb - 1) * 2 ^ sb :=
      Nat.mul_le_mul_right _ h1
    have h3 := Nat.mod_lt p.sequence (Nat.two_pow_pos sb)
    have h4 : (2 ^ mb - 1) * 2 ^ sb + 2 ^ sb = 2 ^ mb * 2 ^ sb := by
      rw [← Nat.succ_mul]
      congr 1
      have := Nat.two_pow_pos mb
      omega
    have h6 : 2 ^ mb * 2 ^ sb = 2 ^ (mb + sb) := (Nat.pow_add 2 mb sb).symm
    omega
  rw [Nat.add_assoc, Nat.mul_comm (p.timestamp % 2 ^ tb),
    Nat.mul_add_div (Nat.two_pow_pos _), Nat.div_eq_of_lt hlow, Nat.add_zero]
  exact Nat.mod_eq_of_lt (Nat.mod_lt _ (Nat.two_pow_pos _))

/-- The machine-id field never bleeds into the sequence field either. -/
theorem decode_sequence_into {tb mb sb : Nat} (hsum : tb + mb + sb ≤ 64)
    (p : TimestampSequence) (mid : Nat) :
    (SnowflakeConfig.derive tb mb sb).decode_sequence
        (p.into_snowflake mid (SnowflakeConfig.derive tb mb sb)) =
      p.sequence % 2 ^ sb := by
  rw [into_snowflake_eq_add hsum]
  unfold SnowflakeConfig.decode_sequence
  rw [derive_sequence_mask, Nat.and_pow_two_sub_one_eq_mod]
  have hdvd : (2 : Nat) ^ sb ∣
      (p.timestamp % 2 ^ tb * 2 ^ (mb + sb) + mid % 2 ^ mb * 2 ^ sb) := by
    refine Nat.dvd_add ⟨p.timestamp % 2 ^ tb * 2 ^ mb, ?_⟩ ⟨mid % 2 ^ mb, ?_⟩
    · rw [Nat.pow_add]
      ring
    · ring
  obtain ⟨d, hd⟩ := hdvd
  rw [hd, Nat.mul_add_mod]
  exact Nat.mod_eq_of_lt (Nat.mod_lt _ (Nat.two_pow_pos _))

theorem runGenerate_nil (g : SnowflakeGenerator) (w : Nat) :
    g.runGenerate w [] = ([], w) := rfl

theorem runGenerate_cons (g : SnowflakeGenerator) (w : Nat)
    (t : Except String Nat) (ts : List (Except String Nat)) :
    g.runGenerate w (t :: ts) =
      ((g.generate w t).1 :: (g.runGenerate (g.generate w t).2 ts).1,
        (g.runGenerate (g.generate w t).2 ts).2) := rfl

/-- A `generate` call whose time source fails propagates the message and
leaves the counter word untouched. -/
theorem generate_error_input (g : SnowflakeGenerator) (w : Nat) (msg : String) :
    g.generate w (.error msg) = (some (.error (.TimestampError msg)), w) := rfl

/-- A `generate` call with an in-range time value delegates to
`increment_sequence` with the epoch-relative timestamp. -/
theorem generate_ok_input (g : SnowflakeGenerator) (w v : Nat)
    (hv1 : g.epoch ≤ v) (hv2 : v - g.epoch < g.config.timestamp_max) :
    g.generate w (.ok v) =
      (match g.ts_gen.increment_sequence w (v - g.epoch) with
        | (.error e, w2) => (some (.error e), w2)
        | (.ok ts, w2) =>
          (some (.ok (ts.into_snowflake g.machine_id g.config)), w2)) := by
  simp only [SnowflakeGenerator.generate, SnowflakeGenerator.get_epoch_relative_timestamp]
  rw [if_neg (Nat.not_lt.mpr hv1), if_pos hv2]

/-- A `generate` call whose relative timestamp reaches `timestamp_max` fails
with `TimestampOverflow` and leaves the counter word untouched. -/
theorem generate_overflow_input (g : SnowflakeGenerator) (w v : Nat)
    (hv1 : g.epoch ≤ v) (hv2 : g.config.timestamp_max ≤ v - g.epoch) :
    g.generate w (.ok v) = (some (.error .TimestampOverflow), w) := by
  simp only [SnowflakeGenerator.generate, SnowflakeGenerator.get_epoch_relative_timestamp]
  rw [if_neg (Nat.not_lt.mpr hv1), if_neg (Nat.not_lt.mpr hv2)]

/-- A `generate` call with a time value before the epoch reaches the
underflow branch of the checked subtraction. -/
theorem generate_pre_epoch (g : SnowflakeGenerator) (w v : Nat)
    (hv : v < g.epoch) : g.generate w (.ok v) = (none, w) := by
  simp only [SnowflakeGenerator.generate, SnowflakeGenerator.get_epoch_relative_timestamp]
  rw [if_pos hv]

/-- `increment_sequence` only ever reports `SequenceOverflow` or success. -/
theorem increment_sequence_fst_cases (g : TimestampSequenceGenerator) (w c : Nat) :
    (g.increment_sequence w c).1 = .error .SequenceOverflow ∨
      ∃ p, (g.increment_sequence w c).1 = .ok p := by
  rw [increment_sequence_eq]
  split
  · exact Or.inl rfl
  · exact Or.inr ⟨_, rfl⟩

/-- A run of `generate` calls with in-range `Ok` time values is the image of
the corresponding run of `increment_sequence` calls on the epoch-relative
timestamps. -/
theorem runGenerate_eq_map (g : SnowflakeGenerator) (vs : List Nat) :
    ∀ w : Nat, (∀ v ∈ vs, g.epoch ≤ v ∧ v - g.epoch < g.config.timestamp_max) →
      g.runGenerate w (vs.map Except.ok) =
        ((g.ts_gen.runIncrement w (vs.map (fun v => v - g.epoch))).1.map
            (fun r => some (r.map
              (fun ts => ts.into_snowflake g.machine_id g.config))),
          (g.ts_gen.runIncrement w (vs.map (fun v => v - g.epoch))).2) := by
  induction vs with
  | nil => intro w _; rfl
  | cons v vs ih =>
    intro w hv
    obtain ⟨hv1, hv2⟩ := hv v (List.mem_cons_self _ _)
    have htail : ∀ x ∈ vs, g.epoch ≤ x ∧ x - g.epoch < g.config.timestamp_max :=
      fun x hx => hv x (List.mem_cons_of_mem _ hx)
    rw [List.map_cons, List.map_cons, runGenerate_cons, runIncrement_cons,
      generate_ok_input g w v hv1 hv2]
    rcases hstep : g.ts_gen.increment_sequence w (v - g.epoch) with ⟨r, w2⟩
    cases r with
    | error e =>
      dsimp only
      rw [ih w2 htail]
      dsimp only [Except.map]
      rw [List.map_cons]
    | ok ts =>
      dsimp only
      rw [ih w2 htail]
      dsimp only [Except.map]
      rw [List.map_cons]

/-- C4: with the default (41,10,12) layout, `machine_id = 0x10`, `epoch = 0`
and a time source constantly returning `0x1234`, the first `generate()` call
returns `Ok(0x48D010000)` and the second returns `Ok(0x48D010001)`. -/
theorem default_layout_scenario :
    (SnowflakeGenerator.newGen 0x10 0 (.ok 0x1234)).map
        (Except.map (fun gw : SnowflakeGenerator × Nat =>
          (gw.1.runGenerate gw.2 [.ok 0x1234, .ok 0x1234]).1)) =
      some (.ok [some (.ok 0x48D010000), some (.ok 0x48D010001)]) := by
  decide

/-- C3 counterexample: at widths `(2^64 - 1, 1, 64)` the integer width sum
exceeds 64, so the claim demands `InvalidBitConfig`; but the `u64` sum in
`validate_config` overflows (checked addition, a panic — the guarded `none`
branch of the embedding) and no `InvalidBitConfig` is returned. -/
theorem config_new_u64_overflow_cx :
    SnowflakeConfig.new (2 ^ 64 - 1) 1 64 = none ∧
      SnowflakeConfig.new (2 ^ 64 - 1) 1 64 ≠ some (.error .InvalidBitConfig) ∧
      64 < 2 ^ 64 - 1 + 1 + 64 := by
  refine ⟨?_, ?_, by norm_num⟩
  · unfold SnowflakeConfig.new
    rw [if_pos (by unfold u64size; omega)]
  · unfold SnowflakeConfig.new
    rw [if_pos (by unfold u64size; omega)]
    simp

/-- C3 (amended): for every width triple whose `u64` sum does not overflow,
`SnowflakeConfig::new` returns `InvalidBitConfig` exactly when some width is
zero or the sum of the widths exceeds 64; otherwise it succeeds without
panicking, deriving each mask as `(1 << bits) - 1`, the maxima as
`2^bits - 1`, and `timestamp_shift` as `machine_id_bits + sequence_bits`. -/
theorem config_new_spec (tb mb sb : Nat) (hfit : tb + mb + sb < 2 ^ 64) :
    (SnowflakeConfig.new tb mb sb = some (.error .InvalidBitConfig) ↔
      tb = 0 ∨ mb = 0 ∨ sb = 0 ∨ 64 < tb + mb + sb) ∧
    (tb ≠ 0 → mb ≠ 0 → sb ≠ 0 → tb + mb + sb ≤ 64 →
      SnowflakeConfig.new tb mb sb =
          some (.ok { machine_id_bits := mb, sequence_bits := sb,
                        timestamp_mask := 2 ^ tb - 1, machine_id_mask := 2 ^ mb - 1,
                        sequence_mask := 2 ^ sb - 1, timestamp_max := 2 ^ tb - 1,
                        sequence_max := 2 ^ sb - 1 }) ∧
        (SnowflakeConfig.derive tb mb sb).timestamp_shift = mb + sb) := by
  have hno : ¬ (u64size ≤ tb + mb + sb) := by unfold u64size; omega
  constructor
  · unfold SnowflakeConfig.new
    rw [if_neg hno]
    constructor
    · intro h
      by_cases h1 : 64 < tb + mb + sb
      · exact Or.inr (Or.inr (Or.inr h1))
      · rw [if_neg h1] at h
        by_cases h2 : mb = 0 ∨ sb = 0 ∨ tb = 0
        · tauto
        · rw [if_neg h2] at h
          simp at h
    · intro h
      by_cases h1 : 64 < tb + mb + sb
      · rw [if_pos h1]
      · rw [if_neg h1]
        rw [if_pos (show mb = 0 ∨ sb = 0 ∨ tb = 0 by tauto)]
  · intro ht hm hs hsum
    refine ⟨?_, rfl⟩
    unfold SnowflakeConfig.new
    rw [if_neg hno, if_neg (by omega : ¬ 64 < tb + mb + sb),
      if_neg (show ¬ (mb = 0 ∨ sb = 0 ∨ tb = 0) by tauto)]
    simp [SnowflakeConfig.derive, build_mask_eq, calc_max]

/-- Witness for the amended C3 at the default widths. -/
theorem config_new_spec_witness :
    SnowflakeConfig.new 41 10 12 =
      some (.ok { machine_id_bits := 10, sequence_bits := 12,
                    timestamp_mask := 2 ^ 41 - 1, machine_id_mask := 2 ^ 10 - 1,
                    sequence_mask := 2 ^ 12 - 1, timestamp_max := 2 ^ 41 - 1,
                    sequence_max := 2 ^ 12 - 1 }) :=
  (((config_new_spec 41 10 12 (by norm_num)).2 (by norm_num) (by norm_num)
    (by norm_num) (by norm_num))).1

/-- Shape of `get_epoch_relative_timestamp` on a successful time read. -/
theorem get_epoch_ok (epoch now : Nat) (cfg : SnowflakeConfig) :
    SnowflakeGenerator.get_epoch_relative_timestamp (.ok now) epoch cfg =
      if now < epoch then none
      else if now - epoch < cfg.timestamp_max then some (.ok (now - epoch))
      else some (.error .TimestampOverflow) := rfl

/-- C5: a failing time source makes `generate()` and both constructors fail
with `TimestampError` carrying the source message; with a time value at or
after the epoch, the call fails with `TimestampOverflow` exactly when the
relative timestamp `now - epoch` reaches `config.timestamp_max`. -/
theorem timestamp_error_and_overflow_spec (g : SnowflakeGenerator)
    (w mid epoch now : Nat) (msg : String) (cfg : SnowflakeConfig) :
    (g.generate w (.error msg)).1 = some (.error (.TimestampError msg)) ∧
    SnowflakeGenerator.new_with_config mid epoch (.error msg) cfg =
      some (.error (.TimestampError msg)) ∧
    SnowflakeGenerator.newGen mid epoch (.error msg) =
      some (.error (.TimestampError msg)) ∧
    (g.epoch ≤ now →
      ((g.generate w (.ok now)).1 = some (.error .TimestampOverflow) ↔
        g.config.timestamp_max ≤ now - g.epoch)) ∧
    (epoch ≤ now →
      (SnowflakeGenerator.new_with_config mid epoch (.ok now) cfg =
          some (.error .TimestampOverflow) ↔
        cfg.timestamp_max ≤ now - epoch)) := by
  refine ⟨rfl, rfl, rfl, ?_, ?_⟩
  · intro hle
    constructor
    · intro h
      by_contra hlt
      rw [generate_ok_input g w now hle (Nat.lt_of_not_le hlt)] at h
      rcases hstep : g.ts_gen.increment_sequence w (now - g.epoch) with ⟨r, w2⟩
      rcases increment_sequence_fst_cases g.ts_gen w (now - g.epoch) with hcase | ⟨p, hcase⟩ <;>
        rw [hstep] at hcase h <;> dsimp only at hcase <;> subst hcase <;> simp at h
    · intro h
      rw [generate_overflow_input g w now hle h]
  · intro hle
    constructor
    · intro h
      by_contra hlt
      unfold SnowflakeGenerator.new_with_config at h
      rw [get_epoch_ok, if_neg (Nat.not_lt.mpr hle),
        if_pos (Nat.not_le.mp hlt)] at h
      simp at h
    · intro h
      unfold SnowflakeGenerator.new_with_config
      rw [get_epoch_ok, if_neg (Nat.not_lt.mpr hle), if_neg (Nat.not_lt.mpr h)]

/-- Witness for C5 on a small derived configuration. -/
theorem timestamp_error_and_overflow_spec_witness :
    (({ machine_id := 0, ts_gen := .ofConfig (SnowflakeConfig.derive 3 2 2),
        epoch := 0, config := SnowflakeConfig.derive 3 2 2 } :
          SnowflakeGenerator).generate 0 (.error "clock failure")).1 =
      some (.error (.TimestampError "clock failure")) ∧
    (({ machine_id := 0, ts_gen := .ofConfig (SnowflakeConfig.derive 3 2 2),
        epoch := 0, config := SnowflakeConfig.derive 3 2 2 } :
          SnowflakeGenerator).generate 0 (.ok 100)).1 =
      some (.error .TimestampOverflow) := by
  have h := timestamp_error_and_overflow_spec
    { machine_id := 0, ts_gen := .ofConfig (SnowflakeConfig.derive 3 2 2),
      epoch := 0, config := SnowflakeConfig.derive 3 2 2 }
    0 0 0 100 "clock failure" (SnowflakeConfig.derive 3 2 2)
  exact ⟨h.1, (h.2.2.2.1 (by decide)).mpr (by decide)⟩

/-- C9: a time value strictly before the epoch drives `generate()` and the
constructor into the unchecked `u64` subtraction `now - epoch`: the underflow
(guarded `none`) branch of the embedding is reached and no
`SnowflakeGeneratorError` is returned. -/
theorem pre_epoch_underflow (g : SnowflakeGenerator) (w mid epoch now : Nat)
    (cfg : SnowflakeConfig) (hg : now < g.epoch) (hc : now < epoch) :
    g.generate w (.ok now) = (none, w) ∧
    SnowflakeGenerator.new_with_config mid epoch (.ok now) cfg = none := by
  refine ⟨generate_pre_epoch g w now hg, ?_⟩
  unfold SnowflakeGenerator.new_with_config
  rw [get_epoch_ok, if_pos hc]

/-- Witness for C9: epoch 5, time value 3. -/
theorem pre_epoch_underflow_witness :
    ({ machine_id := 0, ts_gen := .ofConfig (SnowflakeConfig.derive 3 2 2),
       epoch := 5, config := SnowflakeConfig.derive 3 2 2 } :
        SnowflakeGenerator).generate 0 (.ok 3) = (none, 0) ∧
    SnowflakeGenerator.new_with_config 0 5 (.ok 3)
      (SnowflakeConfig.derive 3 2 2) = none :=
  pre_epoch_underflow
    { machine_id := 0, ts_gen := .ofConfig (SnowflakeConfig.derive 3 2 2),
      epoch := 5, config := SnowflakeConfig.derive 3 2 2 }
    0 0 5 3 (SnowflakeConfig.derive 3 2 2) (by decide) (by decide)

/-- C10: whenever `generate()` fails with `TimestampError` or
`TimestampOverflow` the counter word is left unchanged, and any call that
changes the counter word returned either `Ok` or `SequenceOverflow`. -/
theorem timestamp_failures_leave_counter (g : SnowflakeGenerator) (w : Nat)
    (t : Except String Nat) :
    ((∃ m, (g.generate w t).1 = some (.error (.TimestampError m))) →
      (g.generate w t).2 = w) ∧
    ((g.generate w t).1 = some (.error .TimestampOverflow) →
      (g.generate w t).2 = w) ∧
    ((g.generate w t).2 ≠ w →
      (g.generate w t).1 = some (.error .SequenceOverflow) ∨
        ∃ id, (g.generate w t).1 = some (.ok id)) := by
  match t with
  | .error msg =>
    rw [generate_error_input]
    exact ⟨fun _ => rfl, fun _ => rfl, fun h => absurd rfl h⟩
  | .ok v =>
    rcases Nat.lt_or_ge v g.epoch with hv | hv
    · rw [generate_pre_epoch g w v hv]
      exact ⟨fun _ => rfl, fun _ => rfl, fun h => absurd rfl h⟩
    · rcases Nat.lt_or_ge (v - g.epoch) g.config.timestamp_max with hr | hr
      · rw [generate_ok_input g w v hv hr]
        rcases hstep : g.ts_gen.increment_sequence w (v - g.epoch) with ⟨r, w2⟩
        rcases increment_sequence_fst_cases g.ts_gen w (v - g.epoch) with hcase | ⟨p, hcase⟩ <;>
          rw [hstep] at hcase <;> dsimp only at hcase <;> subst hcase
        · refine ⟨?_, ?_, fun _ => Or.inl rfl⟩
          · rintro ⟨m, hm⟩
            simp at hm
          · intro hm
            simp at hm
        · refine ⟨?_, ?_, fun _ => Or.inr ⟨_, rfl⟩⟩
          · rintro ⟨m, hm⟩
            simp at hm
          · intro hm
            simp at hm
      · rw [generate_overflow_input g w v hv hr]
        exact ⟨fun _ => rfl, fun _ => rfl, fun h => absurd rfl h⟩

/-- Witness for C10: a failing time source leaves the word unchanged. -/
theorem timestamp_failures_leave_counter_witness :
    (({ machine_id := 0, ts_gen := .ofConfig (SnowflakeConfig.derive 3 2 2),
        epoch := 0, config := SnowflakeConfig.derive 3 2 2 } :
        SnowflakeGenerator).generate 7 (.error "down")).2 = 7 :=
  (timestamp_failures_leave_counter
    { machine_id := 0, ts_gen := .ofConfig (SnowflakeConfig.derive 3 2 2),
      epoch := 0, config := SnowflakeConfig.derive 3 2 2 } 7 (.error "down")).1
    ⟨"down", rfl⟩

/-- Inversion of a successful `increment_sequence` call: the returned pair is
read off the pre-add word and the stored word is its wrapped successor. -/
theorem increment_ok_inversion (g : TimestampSequenceGenerator) (w c : Nat)
    (p : TimestampSequence) (w2 : Nat)
    (h : g.increment_sequence w c = (.ok p, w2)) :
    p.sequence = g.casResult w c &&& g.extended_sequence_mask ∧
    p.timestamp = (g.casResult w c &&& g.shifted_timestamp_mask) >>>
      g.config.timestamp_shift ∧
    w2 = (g.casResult w c + 1) % u64size := by
  rcases p with ⟨ps, pt⟩
  rw [increment_sequence_eq] at h
  split at h
  · exact absurd h (by simp)
  · simp only [Prod.mk.injEq, Except.ok.injEq, TimestampSequence.mk.injEq] at h
    exact ⟨h.1.1.symm, h.1.2.symm, h.2.symm⟩

/-- Inversion of a successful `generate` call: the time source returned an
in-range value and the ID is the assembly of a successful increment. -/
theorem generate_ok_inversion (g : SnowflakeGenerator) (w : Nat)
    (t : Except String Nat) (id : Nat) (w2 : Nat)
    (h : g.generate w t = (some (.ok id), w2)) :
    ∃ v p, t = .ok v ∧ g.epoch ≤ v ∧ v - g.epoch < g.config.timestamp_max ∧
      g.ts_gen.increment_sequence w (v - g.epoch) = (.ok p, w2) ∧
      id = p.into_snowflake g.machine_id g.config := by
  cases t with
  | error m =>
    rw [generate_error_input] at h
    simp at h
  | ok v =>
    rcases Nat.lt_or_ge v g.epoch with hv | hv
    · rw [generate_pre_epoch g w v hv] at h
      simp at h
    · rcases Nat.lt_or_ge (v - g.epoch) g.config.timestamp_max with hr | hr
      · rw [generate_ok_input g w v hv hr] at h
        rcases hstep : g.ts_gen.increment_sequence w (v - g.epoch) with ⟨r, wx⟩
        rw [hstep] at h
        cases r with
        | error e => simp at h
        | ok p =>
          dsimp only at h
          simp only [Prod.mk.injEq, Option.some.injEq, Except.ok.injEq] at h
          refine ⟨v, p, rfl, hv, hr, ?_, h.1.symm⟩
          rw [hstep, h.2]
      · rw [generate_overflow_input g w v hv hr] at h
        simp at h

/-- Inversion of a successful constructor call: the generator stores the
inputs and the counter word is the shifted relative timestamp. -/
theorem new_with_config_ok_inversion (mid epoch v : Nat) (cfg : SnowflakeConfig)
    (g : SnowflakeGenerator) (w0 : Nat)
    (h : SnowflakeGenerator.new_with_config mid epoch (.ok v) cfg =
      some (.ok (g, w0))) :
    g = { machine_id := mid, ts_gen := .ofConfig cfg, epoch := epoch,
          config := cfg } ∧
    w0 = ((v - epoch) <<< cfg.timestamp_shift) % u64size ∧
    epoch ≤ v ∧ v - epoch < cfg.timestamp_max := by
  unfold SnowflakeGenerator.new_with_config at h
  rw [get_epoch_ok] at h
  rcases Nat.lt_or_ge v epoch with hv | hv
  · rw [if_pos hv] at h
    simp at h
  · rw [if_neg (Nat.not_lt.mpr hv)] at h
    rcases Nat.lt_or_ge (v - epoch) cfg.timestamp_max with hr | hr
    · rw [if_pos hr] at h
      dsimp only at h
      simp only [Option.some.injEq, Except.ok.injEq, Prod.mk.injEq] at h
      exact ⟨h.1.symm, h.2.symm, hv, hr⟩
    · rw [if_neg (Nat.not_lt.mpr hr)] at h
      simp at h

/-- C8 counterexample: with the default layout and the machine id
`0xFFFFFFFF`, which does not fit in 10 bits, the assembled ID's timestamp and
sequence fields are exactly the counter's pair `(0x1234, 0)`: the adjacent
fields are not corrupted — the machine id is truncated to `0x3FF`. -/
theorem machine_id_corruption_cx :
    (SnowflakeConfig.derive 41 10 12).decodePair
        (TimestampSequence.into_snowflake { sequence := 0, timestamp := 0x1234 }
          0xFFFFFFFF (SnowflakeConfig.derive 41 10 12)) = (0x1234, 0) ∧
    TimestampSequence.into_snowflake { sequence := 0, timestamp := 0x1234 }
        0xFFFFFFFF (SnowflakeConfig.derive 41 10 12) =
      TimestampSequence.into_snowflake { sequence := 0, timestamp := 0x1234 }
        0x3FF (SnowflakeConfig.derive 41 10 12) := by
  decide

/-- C8 (amended): `machine_id` is indeed never validated — the constructor
accepts any value, stores it unchanged, and nothing else in construction
depends on it — but an out-of-range machine id is silently truncated to its
low `machine_id_bits` bits by `machine_id_mask` during assembly, leaving the
adjacent timestamp and sequence fields intact, not corrupted. -/
theorem machine_id_truncation (tb mb sb : Nat) (hv : WidthsValid tb mb sb)
    (p : TimestampSequence) (mid mid2 epoch : Nat) (t : Except String Nat) :
    (SnowflakeConfig.derive tb mb sb).decode_timestamp
        (p.into_snowflake mid (SnowflakeConfig.derive tb mb sb)) =
      p.timestamp % 2 ^ tb ∧
    (SnowflakeConfig.derive tb mb sb).decode_sequence
        (p.into_snowflake mid (SnowflakeConfig.derive tb mb sb)) =
      p.sequence % 2 ^ sb ∧
    (mid % 2 ^ mb = mid2 % 2 ^ mb →
      p.into_snowflake mid (SnowflakeConfig.derive tb mb sb) =
        p.into_snowflake mid2 (SnowflakeConfig.derive tb mb sb)) ∧
    SnowflakeGenerator.new_with_config mid epoch t
        (SnowflakeConfig.derive tb mb sb) =
      (SnowflakeGenerator.new_with_config 0 epoch t
          (SnowflakeConfig.derive tb mb sb)).map
        (Except.map (fun gw => ({ gw.1 with machine_id := mid }, gw.2))) := by
  obtain ⟨htb, hmb, hsb, hsum⟩ := hv
  refine ⟨decode_timestamp_into hsum p mid, decode_sequence_into hsum p mid,
    ?_, ?_⟩
  · intro hm
    rw [into_snowflake_eq_add hsum, into_snowflake_eq_add hsum, hm]
  · unfold SnowflakeGenerator.new_with_config
    rcases SnowflakeGenerator.get_epoch_relative_timestamp t epoch
        (SnowflakeConfig.derive tb mb sb) with _ | r
    · rfl
    · cases r with
      | error e => rfl
      | ok rel => rfl

/-- Witness for the amended C8 at the default layout with an out-of-range
machine id. -/
theorem machine_id_truncation_witness :
    (SnowflakeConfig.derive 41 10 12).decode_timestamp
        (TimestampSequence.into_snowflake { sequence := 0, timestamp := 0x1234 }
          0xFFFFFFFF (SnowflakeConfig.derive 41 10 12)) = 0x1234 % 2 ^ 41 ∧
    TimestampSequence.into_snowflake { sequence := 0, timestamp := 0x1234 }
        0xFFFFFFFF (SnowflakeConfig.derive 41 10 12) =
      TimestampSequence.into_snowflake { sequence := 0, timestamp := 0x1234 }
        0x3FF (SnowflakeConfig.derive 41 10 12) := by
  have h := machine_id_truncation 41 10 12 (by decide)
    { sequence := 0, timestamp := 0x1234 } 0xFFFFFFFF 0x3FF 0 (.ok 0)
  exact ⟨h.1, h.2.2.1 (by decide)⟩

theorem casResult_lt_u64 (g : TimestampSequenceGenerator) {w : Nat} (c : Nat)
    (hw : w < u64size) : g.casResult w c < u64size := by
  unfold TimestampSequenceGenerator.casResult
  dsimp only
  split
  · exact hw
  · exact Nat.mod_lt _ (Nat.two_pow_pos 64)

theorem casResult_cases (g : TimestampSequenceGenerator) (w c : Nat) :
    g.casResult w c = w ∨
      g.casResult w c = c <<< g.config.timestamp_shift % u64size := by
  unfold TimestampSequenceGenerator.casResult
  dsimp only
  split
  · exact Or.inl rfl
  · exact Or.inr rfl

/-- Across two consecutive sequential calls that both succeed, a strictly
increasing decoded timestamp forces the second decoded sequence to zero: the
second pre-add word is either a CAS-installed shifted candidate (sequence
field zero) or the successor of the first pre-add word, and a successor only
changes the timestamp subfield by carrying out of a zeroed sequence field. -/
theorem two_call_seq_reset (tb mb sb : Nat) (hv : WidthsValid tb mb sb)
    {w c1 c2 : Nat} {p1 p2 : TimestampSequence} {w1 w2 : Nat}
    (hw : w < u64size)
    (h1 : (genD tb mb sb).increment_sequence w c1 = (.ok p1, w1))
    (h2 : (genD tb mb sb).increment_sequence w1 c2 = (.ok p2, w2))
    (hlt : p1.timestamp < p2.timestamp) : p2.sequence = 0 := by
  obtain ⟨htb, hmb, hsb, hsum⟩ := hv
  obtain ⟨hs1, ht1, hw1⟩ := increment_ok_inversion _ _ _ _ _ h1
  obtain ⟨hs2, ht2, hw2⟩ := increment_ok_inversion _ _ _ _ _ h2
  set q1 := (genD tb mb sb).casResult w c1 with hq1def
  set q2 := (genD tb mb sb).casResult w1 c2 with hq2def
  have hs2m : p2.sequence = q2 % 2 ^ (sb + 1) := by
    rw [hs2, genD_extended_sequence_mask, Nat.and_pow_two_sub_one_eq_mod]
  have ht1m : p1.timestamp = q1 / 2 ^ (mb + sb) % 2 ^ tb := by
    rw [ht1, decoded_timestamp_of_word hsum]
  have ht2m : p2.timestamp = q2 / 2 ^ (mb + sb) % 2 ^ tb := by
    rw [ht2, decoded_timestamp_of_word hsum]
  rcases casResult_cases (genD tb mb sb) w1 c2 with hcas | hcas
  · -- no CAS before the second add: q2 is the wrapped successor of q1
    rw [← hq2def] at hcas
    by_contra hne
    have hne2 : q2 % 2 ^ (sb + 1) ≠ 0 := by
      rw [hs2m] at hne
      exact hne
    have hKdvd : (2 : Nat) ^ (sb + 1) ∣ 2 ^ (mb + sb) :=
      Nat.pow_dvd_pow 2 (by omega)
    have hne3 : q2 % 2 ^ (mb + sb) ≠ 0 := by
      intro h0
      apply hne2
      rw [← Nat.mod_mod_of_dvd q2 hKdvd, h0, Nat.zero_mod]
    have hq1lt : q1 < u64size := casResult_lt_u64 _ _ hw
    have hq2eq : q2 = q1 + 1 := by
      rcases Nat.lt_or_ge (q1 + 1) u64size with hlt1 | hge1
      · rw [hcas, hw1, Nat.mod_eq_of_lt hlt1]
      · exfalso
        apply hne3
        have h64 : q1 + 1 = u64size := by omega
        rw [hcas, hw1, h64, Nat.mod_self, Nat.zero_mod]
    have hK : 0 < 2 ^ (mb + sb) := Nat.two_pow_pos _
    have hdm := Nat.div_add_mod q1 (2 ^ (mb + sb))
    have hrlt : q1 % 2 ^ (mb + sb) < 2 ^ (mb + sb) := Nat.mod_lt _ hK
    have hcarry : q1 % 2 ^ (mb + sb) + 1 < 2 ^ (mb + sb) := by
      rcases Nat.lt_or_ge (q1 % 2 ^ (mb + sb) + 1) (2 ^ (mb + sb)) with h | h
      · exact h
      · exfalso
        apply hne3
        rw [hq2eq]
        have hfull : q1 + 1 = 2 ^ (mb + sb) * (q1 / 2 ^ (mb + sb) + 1) := by
          rw [Nat.mul_add, Nat.mul_one]
          omega
        rw [hfull, Nat.mul_mod_right]
    have hdiveq : q2 / 2 ^ (mb + sb) = q1 / 2 ^ (mb + sb) := by
      rw [hq2eq]
      have hsplit : q1 + 1 =
          2 ^ (mb + sb) * (q1 / 2 ^ (mb + sb)) + (q1 % 2 ^ (mb + sb) + 1) := by
        omega
      rw [hsplit, Nat.mul_add_div hK, Nat.div_eq_of_lt hcarry, Nat.add_zero]
    rw [ht1m] at hlt
    rw [ht2m, hdiveq] at hlt
    exact absurd hlt (Nat.lt_irrefl _)
  · -- the CAS installed the shifted candidate: its sequence field is zero
    rw [← hq2def] at hcas
    have hdvd : (2 : Nat) ^ (sb + 1) ∣ q2 := by
      rw [hcas, Nat.shiftLeft_eq]
      have hsh : (genD tb mb sb).config.timestamp_shift = mb + sb := rfl
      rw [hsh]
      refine (Nat.dvd_mod_iff (Nat.pow_dvd_pow 2 (by omega : sb + 1 ≤ 64))).mpr ?_
      exact (Nat.pow_dvd_pow 2 (by omega : sb + 1 ≤ mb + sb)).mul_left c2
    rw [hs2m]
    exact Nat.mod_eq_zero_of_dvd hdvd

/-- C7: a sequential `increment_sequence` call whose in-field candidate is
strictly greater than the stored tick installs the candidate with the
sequence subfield reset to zero and returns `(candidate, 0)`; and across
consecutive calls, also at the generator level, whenever the later
successful call's decoded timestamp exceeds the earlier one's, the later
decoded sequence is zero. -/
theorem sequence_reset_on_tick_advance (tb mb sb : Nat)
    (hv : WidthsValid tb mb sb) :
    (∀ w c : Nat, c ≤ 2 ^ tb - 1 →
      (genD tb mb sb).storedTick w < c →
      (genD tb mb sb).increment_sequence w c =
        (.ok { sequence := 0, timestamp := c }, c * 2 ^ (mb + sb) + 1)) ∧
    (∀ (w c1 c2 : Nat) (p1 p2 : TimestampSequence) (w1 w2 : Nat),
      w < u64size →
      (genD tb mb sb).increment_sequence w c1 = (.ok p1, w1) →
      (genD tb mb sb).increment_sequence w1 c2 = (.ok p2, w2) →
      p1.timestamp < p2.timestamp → p2.sequence = 0) ∧
    (∀ (g : SnowflakeGenerator) (w : Nat) (t1 t2 : Except String Nat)
        (id1 id2 w1 w2 : Nat),
      g.config = SnowflakeConfig.derive tb mb sb →
      g.ts_gen = genD tb mb sb → w < u64size →
      g.generate w t1 = (some (.ok id1), w1) →
      g.generate w1 t2 = (some (.ok id2), w2) →
      g.config.decode_timestamp id1 < g.config.decode_timestamp id2 →
      g.config.decode_sequence id2 = 0) := by
  obtain ⟨htb, hmb, hsb, hsum⟩ := hv
  refine ⟨?_, ?_, ?_⟩
  · intro w c hc hgt
    have hcK : c < 2 ^ tb := by
      have := Nat.two_pow_pos tb
      omega
    have hst : (genD tb mb sb).storedTick w = w / 2 ^ (mb + sb) % 2 ^ tb := by
      unfold TimestampSequenceGenerator.storedTick
      exact decoded_timestamp_of_word hsum w
    rw [hst] at hgt
    have hcas : (genD tb mb sb).casResult w c = c * 2 ^ (mb + sb) := by
      rw [casResult_in_range hsum w c hcK, if_neg (Nat.not_le_of_lt hgt)]
    rw [increment_sequence_eq, hcas]
    have hm0 : c * 2 ^ (mb + sb) &&& (genD tb mb sb).extended_sequence_mask = 0 := by
      rw [genD_extended_sequence_mask, Nat.and_pow_two_sub_one_eq_mod]
      exact Nat.mod_eq_zero_of_dvd
        ((Nat.pow_dvd_pow 2 (by omega : sb + 1 ≤ mb + sb)).mul_left c)
    rw [hm0, if_neg (Nat.not_lt_zero _)]
    have hts : (c * 2 ^ (mb + sb) &&& (genD tb mb sb).shifted_timestamp_mask) >>>
        (genD tb mb sb).config.timestamp_shift = c := by
      rw [decoded_timestamp_of_word hsum, Nat.mul_div_cancel _ (Nat.two_pow_pos _)]
      exact Nat.mod_eq_of_lt hcK
    rw [hts]
    have hwrap : (c * 2 ^ (mb + sb) + 1) % u64size = c * 2 ^ (mb + sb) + 1 := by
      apply Nat.mod_eq_of_lt
      have h1 : c * 2 ^ (mb + sb) ≤ (2 ^ tb - 1) * 2 ^ (mb + sb) :=
        Nat.mul_le_mul_right _ hc
      have h2 : (2 ^ tb - 1) * 2 ^ (mb + sb) + 2 ^ (mb + sb) =
          2 ^ tb * 2 ^ (mb + sb) := by
        rw [← Nat.succ_mul]
        congr 1
        have := Nat.two_pow_pos tb
        omega
      have h3 : 2 ^ tb * 2 ^ (mb + sb) = 2 ^ (tb + (mb + sb)) :=
        (Nat.pow_add 2 tb (mb + sb)).symm
      have h4 : (2 : Nat) ^ (tb + (mb + sb)) ≤ 2 ^ 64 :=
        Nat.pow_le_pow_right (by norm_num) (by omega)
      have h6 : 2 ≤ 2 ^ (mb + sb) := by
        calc 2 = 2 ^ 1 := rfl
        _ ≤ 2 ^ (mb + sb) := Nat.pow_le_pow_right (by norm_num) (by omega)
      show c * 2 ^ (mb + sb) + 1 < 2 ^ 64
      omega
    rw [hwrap]
  · intro w c1 c2 p1 p2 w1 w2 hw h1 h2 hlt
    exact two_call_seq_reset tb mb sb ⟨htb, hmb, hsb, hsum⟩ hw h1 h2 hlt
  · intro g w t1 t2 id1 id2 w1 w2 hcfg htg hw hg1 hg2 hdec
    obtain ⟨v1, p1, ht1eq, hv1, hr1, hi1, hid1⟩ :=
      generate_ok_inversion g w t1 id1 w1 hg1
    obtain ⟨v2, p2, ht2eq, hv2, hr2, hi2, hid2⟩ :=
      generate_ok_inversion g w1 t2 id2 w2 hg2
    rw [htg] at hi1 hi2
    obtain ⟨hs1, ht1m, _⟩ := increment_ok_inversion _ _ _ _ _ hi1
    obtain ⟨hs2, ht2m, _⟩ := increment_ok_inversion _ _ _ _ _ hi2
    have hts1 : p1.timestamp < 2 ^ tb := by
      rw [ht1m, decoded_timestamp_of_word hsum]
      exact Nat.mod_lt _ (Nat.two_pow_pos _)
    have hts2 : p2.timestamp < 2 ^ tb := by
      rw [ht2m, decoded_timestamp_of_word hsum]
      exact Nat.mod_lt _ (Nat.two_pow_pos _)
    have hd1 : g.config.decode_timestamp id1 = p1.timestamp := by
      rw [hid1, hcfg, decode_timestamp_into hsum]
      exact Nat.mod_eq_of_lt hts1
    have hd2 : g.config.decode_timestamp id2 = p2.timestamp := by
      rw [hid2, hcfg, decode_timestamp_into hsum]
      exact Nat.mod_eq_of_lt hts2
    rw [hd1, hd2] at hdec
    have h0 : p2.sequence = 0 :=
      two_call_seq_reset tb mb sb ⟨htb, hmb, hsb, hsum⟩ hw hi1 hi2 hdec
    rw [hid2, hcfg, decode_sequence_into hsum, h0, Nat.zero_mod]

/-- Witness for C7: widths (3,2,2), stored tick 5, candidate 6. -/
theorem sequence_reset_on_tick_advance_witness :
    (genD 3 2 2).increment_sequence 80 6 =
      (.ok { sequence := 0, timestamp := 6 }, 6 * 2 ^ (2 + 2) + 1) :=
  (sequence_reset_on_tick_advance 3 2 2 (by decide)).1 80 6 (by decide) (by decide)

/-- C6 counterexample: widths (3,2,2), stored tick 5 (word `5 << 4 = 80`).
The out-of-range candidate 8 passes the shifted comparison (`128 > 80`), the
CAS installs `8 << 4 = 128`, whose masked timestamp subfield is 0: the stored
tick decreases from 5 to 0. -/
theorem stored_tick_decrease_cx :
    (genD 3 2 2).storedTick 80 = 5 ∧
    ((genD 3 2 2).increment_sequence 80 8).2 = 129 ∧
    (genD 3 2 2).storedTick ((genD 3 2 2).increment_sequence 80 8).2 = 0 := by
  decide

/-- The stored tick is non-decreasing along the word trace of a run with
in-field candidates and the per-tick budget respected. -/
theorem wordTrace_tick_mono {tb mb sb : Nat} (htb : 0 < tb) (hmb : 0 < mb)
    (hsb : 0 < sb) (hsum : tb + mb + sb ≤ 64) (cands : List Nat) :
    ∀ w : Nat, w / 2 ^ (mb + sb) < 2 ^ tb - 1 →
      (∀ c ∈ cands, c < 2 ^ tb - 1) →
      (∀ p ∈ (genD tb mb sb).preTrace w cands,
        p % 2 ^ (mb + sb) + 2 ≤ 2 ^ (sb + 1)) →
      ((genD tb mb sb).wordTrace w cands).Chain'
        (fun a b => (genD tb mb sb).storedTick a ≤ (genD tb mb sb).storedTick b) := by
  induction cands with
  | nil =>
    intro w _ _ _
    simp [TimestampSequenceGenerator.wordTrace]
  | cons c cs ih =>
    intro w hw hc hb
    have hchead : c < 2 ^ tb - 1 := hc c (List.mem_cons_self c cs)
    have hbhead : (genD tb mb sb).casResult w c % 2 ^ (mb + sb) + 2 ≤ 2 ^ (sb + 1) := by
      apply hb
      rw [preTrace_cons]
      exact List.mem_cons_self _ _
    obtain ⟨⟨hwp, hpT, hmono⟩, heq, hdiv1, hmod1⟩ :=
      increment_step htb hmb hsb hsum hw hchead hbhead
    set p := (genD tb mb sb).casResult w c with hpdef
    have hnowrap : (p + 1) % u64size = p + 1 := by
      have h1 := increment_sequence_snd (genD tb mb sb) w c
      rw [heq] at h1
      exact h1.symm
    have hwtail : (p + 1) / 2 ^ (mb + sb) < 2 ^ tb - 1 := by
      rw [hdiv1]
      exact hpT
    have hctail : ∀ x ∈ cs, x < 2 ^ tb - 1 :=
      fun x hx => hc x (List.mem_cons_of_mem _ hx)
    have hbtail : ∀ q ∈ (genD tb mb sb).preTrace (p + 1) cs,
        q % 2 ^ (mb + sb) + 2 ≤ 2 ^ (sb + 1) := by
      intro q hq
      apply hb
      rw [preTrace_cons]
      refine List.mem_cons_of_mem _ ?_
      rw [hnowrap]
      exact hq
    have hchain := ih (p + 1) hwtail hctail hbtail
    rw [wordTrace_cons, heq]
    dsimp only
    have hhead : ∃ rest, (genD tb mb sb).wordTrace (p + 1) cs = (p + 1) :: rest := by
      cases cs <;> exact ⟨_, rfl⟩
    obtain ⟨rest, hrest⟩ := hhead
    rw [hrest]
    rw [hrest] at hchain
    refine List.Chain'.cons ?_ hchain
    have hstw : (genD tb mb sb).storedTick w = w / 2 ^ (mb + sb) := by
      unfold TimestampSequenceGenerator.storedTick
      rw [decoded_timestamp_of_word hsum]
      exact Nat.mod_eq_of_lt (Nat.lt_of_lt_of_le hw (Nat.sub_le _ _))
    have hstp : (genD tb mb sb).storedTick (p + 1) = p / 2 ^ (mb + sb) := by
      unfold TimestampSequenceGenerator.storedTick
      rw [decoded_timestamp_of_word hsum, hdiv1]
      exact Nat.mod_eq_of_lt (Nat.lt_of_lt_of_le hpT (Nat.sub_le _ _))
    rw [hstw, hstp]
    exact hmono

/-- C6 (amended): over any run with candidates inside the timestamp field and
fewer than `2^(sequence_bits+1)` calls landing in one tick, the stored tick
never decreases; and a call whose in-field candidate is at most the stored
tick performs no CAS write, only the increment, keeps the stored tick, and on
success returns the stored tick (not the candidate) with that tick's next
sequence value. -/
theorem stored_tick_monotone (tb mb sb : Nat) (hv : WidthsValid tb mb sb) :
    (∀ (cands : List Nat) (w : Nat),
      w / 2 ^ (mb + sb) < 2 ^ tb - 1 →
      (∀ c ∈ cands, c < 2 ^ tb - 1) →
      (genD tb mb sb).perTickBudget w cands →
      ((genD tb mb sb).wordTrace w cands).Chain'
        (fun a b => (genD tb mb sb).storedTick a ≤ (genD tb mb sb).storedTick b)) ∧
    (∀ w c : Nat, w / 2 ^ (mb + sb) < 2 ^ tb - 1 → c < 2 ^ tb - 1 →
      c ≤ (genD tb mb sb).storedTick w →
      (genD tb mb sb).casResult w c = w ∧
      ((genD tb mb sb).increment_sequence w c).2 = (w + 1) % u64size ∧
      (w % 2 ^ (mb + sb) + 2 ≤ 2 ^ (sb + 1) →
        (genD tb mb sb).storedTick ((genD tb mb sb).increment_sequence w c).2 =
          (genD tb mb sb).storedTick w) ∧
      (∀ p : TimestampSequence,
        ((genD tb mb sb).increment_sequence w c).1 = .ok p →
        p.timestamp = (genD tb mb sb).storedTick w ∧
        p.sequence = w &&& (genD tb mb sb).extended_sequence_mask)) := by
  obtain ⟨htb, hmb, hsb, hsum⟩ := hv
  constructor
  · intro cands w hw hc hbud
    exact wordTrace_tick_mono htb hmb hsb hsum cands w hw hc hbud
  · intro w c hw hc hle
    have hcK : c < 2 ^ tb := Nat.lt_of_lt_of_le hc (Nat.sub_le _ _)
    have hstw : (genD tb mb sb).storedTick w = w / 2 ^ (mb + sb) % 2 ^ tb := by
      unfold TimestampSequenceGenerator.storedTick
      exact decoded_timestamp_of_word hsum w
    have hcaseq : (genD tb mb sb).casResult w c = w := by
      rw [casResult_in_range hsum w c hcK, if_pos (by rw [hstw] at hle; exact hle)]
    refine ⟨hcaseq, ?_, ?_, ?_⟩
    · rw [increment_sequence_snd, hcaseq]
    · intro hbud
      have hbud2 : (genD tb mb sb).casResult w c % 2 ^ (mb + sb) + 2 ≤
          2 ^ (sb + 1) := by
        rw [hcaseq]
        exact hbud
      obtain ⟨_, heq, hdiv1, _⟩ := increment_step htb hmb hsb hsum hw hc hbud2
      rw [heq]
      dsimp only
      unfold TimestampSequenceGenerator.storedTick
      rw [decoded_timestamp_of_word hsum, decoded_timestamp_of_word hsum, hdiv1,
        hcaseq]
    · intro p hok
      have hfull : (genD tb mb sb).increment_sequence w c =
          (.ok p, ((genD tb mb sb).increment_sequence w c).2) := by
        rw [← hok]
      obtain ⟨hps, hpt, _⟩ := increment_ok_inversion _ _ _ _ _ hfull
      rw [hcaseq] at hps hpt
      exact ⟨hpt, hps⟩

/-- Witness for the amended C6: a two-call run whose tick advances from 5 to
6 has a non-decreasing stored tick. -/
theorem stored_tick_monotone_witness :
    ((genD 3 2 2).wordTrace 80 [5, 6]).Chain'
      (fun a b => (genD 3 2 2).storedTick a ≤ (genD 3 2 2).storedTick b) :=
  (stored_tick_monotone 3 2 2 (by decide)).1 [5, 6] 80 (by decide)
    (by decide) (by decide)

/-- A run of `increment_sequence` calls with the candidate constantly equal
to the stored tick `rel`, starting from sequence offset `j`: each call
performs no CAS, consumes one slot of the word with no rollback, succeeds
with sequence `j + i` while within `sequence_max`, and fails with
`SequenceOverflow` beyond it. -/
theorem constant_tick_run {tb mb sb : Nat} (htb : 0 < tb) (hmb : 0 < mb)
    (hsb : 0 < sb) (hsum : tb + mb + sb ≤ 64) (rel : Nat)
    (hrel : rel < 2 ^ tb - 1) (n : Nat) :
    ∀ j : Nat, j + n ≤ 2 ^ sb + 2 →
      (genD tb mb sb).runIncrement (rel * 2 ^ (mb + sb) + j)
          (List.replicate n rel) =
        ((List.range n).map (fun i =>
          if j + i ≤ 2 ^ sb - 1 then
            .ok { sequence := j + i, timestamp := rel }
          else .error .SequenceOverflow),
         rel * 2 ^ (mb + sb) + (j + n)) := by
  induction n with
  | zero =>
    intro j _
    simp [runIncrement_nil]
  | succ n ih =>
    intro j hj
    have hK : 0 < 2 ^ (mb + sb) := Nat.two_pow_pos _
    have hcap : 2 ^ (sb + 1) ≤ 2 ^ (mb + sb) := seq_capacity_le_shift hmb
    have h2sb : 2 ^ (sb + 1) = 2 * 2 ^ sb := by
      rw [Nat.pow_succ]
      ring
    have h1sb : 2 ≤ 2 ^ sb := by
      calc 2 = 2 ^ 1 := rfl
      _ ≤ 2 ^ sb := Nat.pow_le_pow_right (by norm_num) hsb
    have hjK : j < 2 ^ (mb + sb) := by omega
    have hrelK : rel < 2 ^ tb := Nat.lt_of_lt_of_le hrel (Nat.sub_le _ _)
    have hdiv : (rel * 2 ^ (mb + sb) + j) / 2 ^ (mb + sb) = rel := by
      rw [Nat.mul_comm rel, Nat.mul_add_div hK, Nat.div_eq_of_lt hjK, Nat.add_zero]
    have hmod : (rel * 2 ^ (mb + sb) + j) % 2 ^ (mb + sb) = j := by
      rw [Nat.mul_comm rel, Nat.mul_add_mod]
      exact Nat.mod_eq_of_lt hjK
    have hcas : (genD tb mb sb).casResult (rel * 2 ^ (mb + sb) + j) rel =
        rel * 2 ^ (mb + sb) + j := by
      rw [casResult_in_range hsum _ rel hrelK, hdiv, Nat.mod_eq_of_lt hrelK,
        if_pos (Nat.le_refl rel)]
    have hjlt : j < 2 ^ (sb + 1) := by omega
    have hmasked : (rel * 2 ^ (mb + sb) + j) &&&
        (genD tb mb sb).extended_sequence_mask = j := by
      rw [genD_extended_sequence_mask, Nat.and_pow_two_sub_one_eq_mod,
        ← Nat.mod_mod_of_dvd _ (Nat.pow_dvd_pow 2 (by omega : sb + 1 ≤ mb + sb)),
        hmod]
      exact Nat.mod_eq_of_lt hjlt
    have hts : ((rel * 2 ^ (mb + sb) + j) &&&
        (genD tb mb sb).shifted_timestamp_mask) >>>
        (genD tb mb sb).config.timestamp_shift = rel := by
      rw [decoded_timestamp_of_word hsum, hdiv]
      exact Nat.mod_eq_of_lt hrelK
    have hwrap : (rel * 2 ^ (mb + sb) + j + 1) % u64size =
        rel * 2 ^ (mb + sb) + (j + 1) := by
      rw [Nat.add_assoc]
      apply Nat.mod_eq_of_lt
      have h1 : rel * 2 ^ (mb + sb) ≤ (2 ^ tb - 2) * 2 ^ (mb + sb) :=
        Nat.mul_le_mul_right _ (by omega)
      have h2 : (2 ^ tb - 2) * 2 ^ (mb + sb) + 2 ^ (mb + sb) =
          (2 ^ tb - 1) * 2 ^ (mb + sb) := by
        rw [← Nat.succ_mul]
        congr 1
        have := Nat.two_pow_pos tb
        omega
      have h3 : (2 ^ tb - 1) * 2 ^ (mb + sb) < 2 ^ tb * 2 ^ (mb + sb) :=
        (Nat.mul_lt_mul_right hK).mpr (Nat.sub_lt (Nat.two_pow_pos _) Nat.one_pos)
      have h4 : 2 ^ tb * 2 ^ (mb + sb) = 2 ^ (tb + (mb + sb)) :=
        (Nat.pow_add 2 tb (mb + sb)).symm
      have h5 : (2 : Nat) ^ (tb + (mb + sb)) ≤ 2 ^ 64 :=
        Nat.pow_le_pow_right (by norm_num) (by omega)
      show rel * 2 ^ (mb + sb) + (j + 1) < 2 ^ 64
      omega
    have hstep : (genD tb mb sb).increment_sequence (rel * 2 ^ (mb + sb) + j) rel =
        (if 2 ^ sb - 1 < j then .error .SequenceOverflow
          else .ok { sequence := j, timestamp := rel },
         rel * 2 ^ (mb + sb) + (j + 1)) := by
      rw [increment_sequence_eq, hcas, hmasked, hts, hwrap, genD_config,
        derive_sequence_max]
    rw [List.replicate_succ, runIncrement_cons, hstep]
    dsimp only
    rw [ih (j + 1) (by omega)]
    rw [List.range_succ_eq_map, List.map_cons, List.map_map]
    refine Prod.ext ?_ ?_
    · dsimp only
      simp only [Nat.add_zero]
      congr 1
      · by_cases hov : 2 ^ sb - 1 < j
        · rw [if_pos hov, if_neg (by omega)]
        · rw [if_neg hov, if_pos (by omega)]
      · refine List.map_congr_left ?_
        intro i _
        simp only [Function.comp]
        have hcongr : j + (i + 1) = j + 1 + i := by omega
        rw [hcongr]
    · dsimp only
      congr 1
      omega

/-- C2: with the time source held constant at a value whose relative
timestamp equals the counter's stored tick, the first `sequence_max + 1`
calls succeed with sequences 0 through `sequence_max`, every further call in
the window fails with `SequenceOverflow` — in particular the first failing
call and the one immediately after it — and every call, failing or not,
consumes its slot: after `n` calls the counter word is exactly the initial
word plus `n`, with no rollback. -/
theorem sequence_exhaustion (tb mb sb : Nat) (hv : WidthsValid tb mb sb)
    (mid epoch v : Nat) (g : SnowflakeGenerator) (w0 : Nat)
    (hmk : SnowflakeGenerator.new_with_config mid epoch (.ok v)
      (SnowflakeConfig.derive tb mb sb) = some (.ok (g, w0)))
    (n : Nat) (hn : n ≤ 2 ^ sb + 2) :
    g.runGenerate w0 (List.replicate n (.ok v)) =
      ((List.range n).map (fun i =>
        if i ≤ 2 ^ sb - 1 then
          some (.ok (TimestampSequence.into_snowflake
            { sequence := i, timestamp := v - epoch } mid
            (SnowflakeConfig.derive tb mb sb)))
        else some (.error .SequenceOverflow)),
       (v - epoch) * 2 ^ (mb + sb) + n) := by
  obtain ⟨htb, hmb, hsb, hsum⟩ := hv
  obtain ⟨hg, hw0, hve, hrel⟩ := new_with_config_ok_inversion mid epoch v _ g w0 hmk
  rw [derive_timestamp_max] at hrel
  have hrelK : v - epoch < 2 ^ tb := Nat.lt_of_lt_of_le hrel (Nat.sub_le _ _)
  have hw0eq : w0 = (v - epoch) * 2 ^ (mb + sb) := by
    rw [hw0, derive_timestamp_shift, Nat.shiftLeft_eq]
    exact Nat.mod_eq_of_lt (mul_two_pow_shift_lt_u64 hsum hrelK)
  have hmap : List.replicate n (Except.ok v : Except String Nat) =
      (List.replicate n v).map Except.ok := by
    rw [List.map_replicate]
  rw [hg, hmap, runGenerate_eq_map _ (List.replicate n v) w0 ?hvs]
  case hvs =>
    intro x hx
    rw [List.eq_of_mem_replicate hx]
    exact ⟨hve, by rw [derive_timestamp_max]; exact hrel⟩
  have hgenD : TimestampSequenceGenerator.ofConfig (SnowflakeConfig.derive tb mb sb) =
      genD tb mb sb := rfl
  dsimp only
  rw [hgenD, List.map_replicate, hw0eq]
  have hrun := constant_tick_run htb hmb hsb hsum (v - epoch) hrel n 0 (by omega)
  simp only [Nat.add_zero, Nat.zero_add] at hrun
  rw [hrun]
  dsimp only
  refine Prod.ext ?_ rfl
  rw [List.map_map]
  refine List.map_congr_left ?_
  intro i _
  simp only [Function.comp]
  by_cases hov : i ≤ 2 ^ sb - 1
  · rw [if_pos hov, if_pos hov]
    rfl
  · rw [if_neg hov, if_neg hov]
    rfl

/-- Witness for C2: widths (3,2,2), tick 5; six calls give sequences 0..3
then two `SequenceOverflow` failures, the word advancing by one each call. -/
theorem sequence_exhaustion_witness :
    ({ machine_id := 1, ts_gen := genD 3 2 2, epoch := 0,
        config := SnowflakeConfig.derive 3 2 2 } :
      SnowflakeGenerator).runGenerate 80 (List.replicate 6 (.ok 5)) =
      ((List.range 6).map (fun i =>
        if i ≤ 2 ^ 2 - 1 then
          some (.ok (TimestampSequence.into_snowflake
            { sequence := i, timestamp := 5 - 0 } 1 (SnowflakeConfig.derive 3 2 2)))
        else some (.error .SequenceOverflow)),
       (5 - 0) * 2 ^ (2 + 2) + 6) :=
  sequence_exhaustion 3 2 2 (by decide) 1 0 5
    { machine_id := 1, ts_gen := genD 3 2 2, epoch := 0,
      config := SnowflakeConfig.derive 3 2 2 } 80 (by decide) 6 (by decide)

/-- C1 counterexample: widths (3,2,2) (so `2^(sequence_bits+1) = 8`), epoch
0, machine id 0, time source constantly 0.  Nine `generate()` calls land in
the single tick 0; the first and the ninth both succeed and decode to the
same `(timestamp, sequence)` pair `(0, 0)` — the extended sequence field of
the counter wrapped — so the successful outputs are not pairwise
distinct. -/
theorem generate_duplicate_pair_cx :
    SnowflakeGenerator.new_with_config 0 0 (.ok 0)
        (SnowflakeConfig.derive 3 2 2) =
      some (.ok ({ machine_id := 0, ts_gen := genD 3 2 2, epoch := 0,
                   config := SnowflakeConfig.derive 3 2 2 }, 0)) ∧
    ¬ ((((({ machine_id := 0, ts_gen := genD 3 2 2, epoch := 0,
             config := SnowflakeConfig.derive 3 2 2 } :
        SnowflakeGenerator).runGenerate 0
          (List.replicate 9 (.ok 0))).1.filterMap okId).map
        (SnowflakeConfig.derive 3 2 2).decodePair).Pairwise (· ≠ ·)) := by
  decide

/-- Extracting the successful IDs of mapped increment results is mapping the
assembly over the successful pairs. -/
theorem filterMap_okId_map (f : TimestampSequence → Nat)
    (L : List (Except SnowflakeGeneratorError TimestampSequence)) :
    (L.map (fun r => some (r.map f))).filterMap okId =
      (L.filterMap okPair).map f := by
  induction L with
  | nil => rfl
  | cons r L ih =>
    cases r with
    | error e =>
      simpa [okId, okPair, Except.map] using ih
    | ok p =>
      simpa [okId, okPair, Except.map] using ih

/-- C1 (amended): over every finite sequence of `generate()` calls on one
generator with in-range time values, provided fewer than
`2^(sequence_bits+1)` calls land in any one tick (the per-tick budget over
the run's pre-add words), the decoded (timestamp, sequence) pairs of all
successful calls are pairwise distinct. -/
theorem generate_ok_pairs_distinct (tb mb sb : Nat) (hv : WidthsValid tb mb sb)
    (mid epoch v0 : Nat) (g : SnowflakeGenerator) (w0 : Nat)
    (hmk : SnowflakeGenerator.new_with_config mid epoch (.ok v0)
      (SnowflakeConfig.derive tb mb sb) = some (.ok (g, w0)))
    (vs : List Nat)
    (hvs : ∀ x ∈ vs, epoch ≤ x ∧ x - epoch < 2 ^ tb - 1)
    (hbudget : (genD tb mb sb).perTickBudget w0 (vs.map (fun x => x - epoch))) :
    (((g.runGenerate w0 (vs.map Except.ok)).1.filterMap okId).map
        (SnowflakeConfig.derive tb mb sb).decodePair).Pairwise (· ≠ ·) := by
  obtain ⟨htb, hmb, hsb, hsum⟩ := hv
  obtain ⟨hg, hw0, hve, hrel⟩ := new_with_config_ok_inversion mid epoch v0 _ g w0 hmk
  rw [derive_timestamp_max] at hrel
  have hrelK : v0 - epoch < 2 ^ tb := Nat.lt_of_lt_of_le hrel (Nat.sub_le _ _)
  have hw0eq : w0 = (v0 - epoch) * 2 ^ (mb + sb) := by
    rw [hw0, derive_timestamp_shift, Nat.shiftLeft_eq]
    exact Nat.mod_eq_of_lt (mul_two_pow_shift_lt_u64 hsum hrelK)
  rw [hg, runGenerate_eq_map _ vs w0 ?hvs2]
  case hvs2 =>
    intro x hx
    obtain ⟨h1, h2⟩ := hvs x hx
    exact ⟨h1, by rw [derive_timestamp_max]; exact h2⟩
  have hgenD : TimestampSequenceGenerator.ofConfig (SnowflakeConfig.derive tb mb sb) =
      genD tb mb sb := rfl
  dsimp only
  rw [hgenD, filterMap_okId_map, List.map_map, List.pairwise_map]
  have hcands : ∀ c ∈ vs.map (fun x => x - epoch), c < 2 ^ tb - 1 := by
    intro c hc
    obtain ⟨x, hx, rfl⟩ := List.mem_map.mp hc
    exact (hvs x hx).2
  have hw0div : w0 / 2 ^ (mb + sb) < 2 ^ tb - 1 := by
    rw [hw0eq, Nat.mul_div_cancel _ (Nat.two_pow_pos _)]
    exact hrel
  obtain ⟨_, _, hC, hD⟩ := runIncrement_spec htb hmb hsb hsum
    (vs.map (fun x => x - epoch)) w0 hw0div hcands hbudget
  refine List.Pairwise.imp_of_mem ?_ hD
  intro a b ha hb hab
  obtain ⟨hta, hsa, _, _⟩ := hC a ha
  obtain ⟨htb2, hsb2, _, _⟩ := hC b hb
  have h1sb : 1 ≤ 2 ^ sb := Nat.one_le_two_pow
  have hda : (SnowflakeConfig.derive tb mb sb).decodePair
      (a.into_snowflake mid (SnowflakeConfig.derive tb mb sb)) =
      (a.timestamp, a.sequence) := by
    unfold SnowflakeConfig.decodePair
    rw [decode_timestamp_into hsum, decode_sequence_into hsum,
      Nat.mod_eq_of_lt (Nat.lt_of_lt_of_le hta (Nat.sub_le _ _)),
      Nat.mod_eq_of_lt (by omega : a.sequence < 2 ^ sb)]
  have hdb : (SnowflakeConfig.derive tb mb sb).decodePair
      (b.into_snowflake mid (SnowflakeConfig.derive tb mb sb)) =
      (b.timestamp, b.sequence) := by
    unfold SnowflakeConfig.decodePair
    rw [decode_timestamp_into hsum, decode_sequence_into hsum,
      Nat.mod_eq_of_lt (Nat.lt_of_lt_of_le htb2 (Nat.sub_le _ _)),
      Nat.mod_eq_of_lt (by omega : b.sequence < 2 ^ sb)]
  intro heq
  simp only [Function.comp] at heq
  rw [hda, hdb] at heq
  simp only [Prod.mk.injEq] at heq
  rw [heq.1, heq.2] at hab
  exact absurd hab (Nat.lt_irrefl _)

/-- Witness for the amended C1: a three-call run over ticks 0 and 1 yields
pairwise-distinct decoded pairs. -/
theorem generate_ok_pairs_distinct_witness :
    (((({ machine_id := 0, ts_gen := genD 3 2 2, epoch := 0,
          config := SnowflakeConfig.derive 3 2 2 } :
        SnowflakeGenerator).runGenerate 0
          ([0, 1, 1].map Except.ok)).1.filterMap okId).map
        (SnowflakeConfig.derive 3 2 2).decodePair).Pairwise (· ≠ ·) :=
  generate_ok_pairs_distinct 3 2 2 (by decide) 0 0 0
    { machine_id := 0, ts_gen := genD 3 2 2, epoch := 0,
      config := SnowflakeConfig.derive 3 2 2 } 0 (by decide) [0, 1, 1]
    (by decide) (by decide)
